import Mathlib

set_option maxRecDepth 100000
set_option maxHeartbeats 2000000

/-!
Verification development for the chess engine in `main.c`.

The engine core is embedded shallowly:
  - a board is a total function from square numbers to piece codes
    (`-1` = empty, `0..5` white pawn..king, `6..11` black pawn..king);
    the C code stores boards as 64-byte arrays, and all of its in-bounds
    reads and writes are mirrored here, while out-of-bounds accesses
    (undefined behaviour in C) read the total function outside `0..63`;
  - C `char`/`int` arithmetic is `Int` arithmetic; the C `/` and `%`
    operators truncate toward zero, which is `Int.tdiv` / `Int.tmod`;
  - C `double` arithmetic on evals and scores is modelled exactly by `ℚ`
    (every constant in the engine's eval pipeline is a small decimal);
  - the global arena of nodes is a `List N`, the per-thread min-heap a
    `List Int` with a dummy element at position 0, and the functions that
    mutate them pass an explicit `ES` (engine state) record.
-/

namespace Chess

/-- C integer division: truncation toward zero, as in the source's `/`. -/
def cdiv (a b : Int) : Int := Int.tdiv a b

/-- C remainder: sign of the dividend, as in the source's `%`. -/
def cmod (a b : Int) : Int := Int.tmod a b

/-- A board: the source's 64-byte array of piece codes (`EMPTY = -1`),
row 1 first.  An in-bounds access is a list access; an access outside the
array is undefined behaviour in C and is modelled as reading `-1` and
dropping the write (source paths that matter here never read back an
out-of-bounds write). -/
abbrev Board : Type := List Int

/-- Array read `b[i]`. -/
def bread (b : Board) (i : Int) : Int :=
  if 0 ≤ i then b.getD i.toNat (-1) else -1

/-- Array store `b[i] = v`. -/
def upd (b : Board) (i v : Int) : Board :=
  if 0 ≤ i then b.set i.toNat v else b

/-- `WHITE_WINS_EVAL` (1e9). -/
def WHITE_WINS_EVAL : ℚ := 1000000000

/-- `BLACK_WINS_EVAL` (-1e9). -/
def BLACK_WINS_EVAL : ℚ := -1000000000

/-- `DRAW_EVAL`. -/
def DRAW_EVAL : ℚ := 0

/-- `WHITE_WINS_EVAL_THRESHOLD` (1e8). -/
def WHITE_WINS_EVAL_THRESHOLD : ℚ := 100000000

/-- `BLACK_WINS_EVAL_THRESHOLD` (-1e8). -/
def BLACK_WINS_EVAL_THRESHOLD : ℚ := -100000000

/-- `EVAL_FORCED_MATE_INCREMENT`. -/
def EVAL_FORCED_MATE_INCREMENT : ℚ := 1000

/-- `ROOT_SCORE`. -/
def ROOT_SCORE : ℚ := 0

/-- `piecePointValues` table (source line 515): material value per piece. -/
def piecePointValues : List ℚ :=
  [1, 3, mkRat 33 10, 5, 9, 0, -1, -3, mkRat (-33) 10, -5, -9, 0]

/-- `pieceEdgeContribution` table (source line 516). -/
def pieceEdgeContribution : List ℚ :=
  [mkRat 5 100, mkRat 8 100, mkRat 7 100, mkRat 7 100, mkRat 15 100, 0,
   mkRat (-5) 100, mkRat (-8) 100, mkRat (-7) 100, mkRat (-7) 100, mkRat (-15) 100, 0]

/-- `evalBoards[i][j]` as filled by `setupEvalBoards`:
`piecePointValues[i] + (rowScore + colScore - 3) * pieceEdgeContribution[i]`
with `rowScore = i < 6 ? j/8 : 7 - j/8` and `colScore = min(j%8, 7 - j%8)`.
In the source an access outside `0 ≤ i < 12` reads unowned memory
(undefined behaviour); the model returns `0` there, and the in-bounds
property of the indices is proved separately. -/
def evalBoards (i j : Int) : ℚ :=
  if 0 ≤ i ∧ i < 12 then
    let rowScore : Int := if i < 6 then cdiv j 8 else 7 - cdiv j 8
    let colScore : Int := if cmod j 8 < 4 then cmod j 8 else 7 - cmod j 8
    piecePointValues.getD i.toNat 0 +
      ((rowScore + colScore - 3 : Int) : ℚ) * pieceEdgeContribution.getD i.toNat 0
  else 0

/-- `computeEval`: full-board eval, sum of `evalBoards[b[i]][i]` over
non-empty squares (source lines 828-841). -/
def computeEval (b : Board) : ℚ :=
  (List.range 64).foldl
    (fun o i =>
      if bread b (i : Int) ≠ -1 then o + evalBoards (bread b (i : Int)) (i : Int) else o) 0

/-- Squares scanned by a ray loop: `x + step`, `x + 2*step`, ...,
`count` of them (the source computes the bound `l` and loops to it). -/
def raySquares (x step : Int) (count : Nat) : List Int :=
  (List.range count).map (fun k => x + step * ((k : Int) + 1))

/-- Sliding-attack scan of `kingNotInCheck`: walk the ray; an attacker
piece (`a1` or `a2`) seen first is a hit, any other non-empty square
blocks. -/
def rayAttacked (b : Board) (sqs : List Int) (a1 a2 : Int) : Bool :=
  match sqs with
  | [] => false
  | x :: rest =>
    if bread b x = a1 ∨ bread b x = a2 then true
    else if bread b x ≠ -1 then false
    else rayAttacked b rest a1 a2

/-- `kingNotInCheck(b, x, isBlack)` (source lines 1143-1271): true iff no
enemy piece attacks square `x`. `z` offsets attacker codes (0 for white
attackers of a black king, 6 otherwise). The orthogonal ray lengths are
taken from the loop bounds (`X >= 0`, `X < 64`, row limits) and the
diagonal ray lengths from the computed `l` bounds, exactly as in the
source. -/
def kingNotInCheck (b : Board) (x : Int) (isBlack : Bool) : Bool :=
  let r := cdiv x 8
  let c := cmod x 8
  let z : Int := if isBlack then 0 else 6
  -- pawn attacks
  if isBlack ∧ r > 0 ∧ c > 0 ∧ bread b (x - 9) = z then false
  else if isBlack ∧ r > 0 ∧ c < 7 ∧ bread b (x - 7) = z then false
  else if (¬ isBlack) ∧ r < 7 ∧ c > 0 ∧ bread b (x + 7) = z then false
  else if (¬ isBlack) ∧ r < 7 ∧ c < 7 ∧ bread b (x + 9) = z then false
  -- knight and king attacks
  else if c > 0 ∧ bread b (x - 1) = z + 5 then false
  else if c < 7 ∧ bread b (x + 1) = z + 5 then false
  else if r > 0 ∧ c > 1 ∧ bread b (x - 10) = z + 1 then false
  else if r > 0 ∧ c < 6 ∧ bread b (x - 6) = z + 1 then false
  else if r > 0 ∧ c > 0 ∧ bread b (x - 9) = z + 5 then false
  else if r > 0 ∧ c < 7 ∧ bread b (x - 7) = z + 5 then false
  else if r > 0 ∧ bread b (x - 8) = z + 5 then false
  else if r < 7 ∧ c > 1 ∧ bread b (x + 6) = z + 1 then false
  else if r < 7 ∧ c < 6 ∧ bread b (x + 10) = z + 1 then false
  else if r < 7 ∧ c > 0 ∧ bread b (x + 7) = z + 5 then false
  else if r < 7 ∧ c < 7 ∧ bread b (x + 9) = z + 5 then false
  else if r < 7 ∧ bread b (x + 8) = z + 5 then false
  else if r > 1 ∧ c > 0 ∧ bread b (x - 17) = z + 1 then false
  else if r > 1 ∧ c < 7 ∧ bread b (x - 15) = z + 1 then false
  else if r < 6 ∧ c > 0 ∧ bread b (x + 15) = z + 1 then false
  else if r < 6 ∧ c < 7 ∧ bread b (x + 17) = z + 1 then false
  -- diagonal sliding attacks (bishop z+2, queen z+4)
  else if rayAttacked b (raySquares x (-9) (min r c).toNat) (z + 2) (z + 4) then false
  else if rayAttacked b (raySquares x (-7) (min r (7 - c)).toNat) (z + 2) (z + 4) then false
  else if rayAttacked b (raySquares x 9 (min (7 - r) (7 - c)).toNat) (z + 2) (z + 4) then false
  else if rayAttacked b (raySquares x 7 (min (7 - r) c).toNat) (z + 2) (z + 4) then false
  -- orthogonal sliding attacks (rook z+3, queen z+4)
  else if rayAttacked b (raySquares x (-8) ((Int.ediv x 8).toNat) ) (z + 3) (z + 4) then false
  else if rayAttacked b (raySquares x 8 ((Int.ediv (63 - x) 8).toNat)) (z + 3) (z + 4) then false
  else if rayAttacked b (raySquares x (-1) (x - (cdiv x 8) * 8).toNat) (z + 3) (z + 4) then false
  else if rayAttacked b (raySquares x 1 ((cdiv x 8) * 8 + 7 - x).toNat) (z + 3) (z + 4) then false
  else true

/-- The destination/promotion decoding at the top of `examineMove`
(source lines 1315-1323).  NOTE: this mirrors the source exactly — the
promotion piece is computed from `trueMoveto` AFTER `trueMoveto` has
already been overwritten with the true destination square.  Returns
`(trueMoveto, promotion)`. -/
def examineMoveDecode (moveTo : Int) : Int × Int :=
  if moveTo ≥ 96 then
    let tm := cmod moveTo 8
    (tm, cdiv tm 8 - 5)
  else if moveTo ≥ 64 then
    let tm := 56 + cmod moveTo 8
    (tm, cdiv tm 8 - 7)
  else (moveTo, -1)

/-- `computeEvalMove` (source lines 1274-1303): the eval delta of a move —
captured piece's table value subtracted if the true destination is
occupied, then the mover's value at the source subtracted, then the
mover's (or the promotion piece's) value at the true destination added. -/
def computeEvalMove (b : Board) (moveFrom trueMoveto promotion : Int) : ℚ :=
  (if bread b trueMoveto ≠ -1 then -(evalBoards (bread b trueMoveto) trueMoveto) else 0)
  - evalBoards (bread b moveFrom) moveFrom
  + (if promotion = -1 then evalBoards (bread b moveFrom) trueMoveto
     else evalBoards promotion trueMoveto)

/-- The eval computed by `examineMove` for the move `(moveFrom, moveTo)`
(source lines 1307-1353): a move onto the opposing king short-circuits to
the win eval, otherwise `computeEvalMove` on the decoded destination. -/
def examineMoveEval (b : Board) (moveFrom moveTo : Int) : ℚ :=
  let dec := examineMoveDecode moveTo
  let tm := dec.1
  let promotion := dec.2
  if 6 ≤ bread b moveFrom ∧ bread b moveFrom ≤ 11 then
    if bread b tm = 5 then BLACK_WINS_EVAL
    else computeEvalMove b moveFrom tm promotion
  else
    if bread b tm = 11 then WHITE_WINS_EVAL
    else computeEvalMove b moveFrom tm promotion

/-! ### The move generator (`examine*` functions, source lines 1355-1893)

Each per-piece function returns the list of `moveTo` encodings emitted for
a piece on square `x`, in the exact order the source's `mv(...)` calls
fire.  `isB v` / `isW v` mirror the `ifBlack` / `ifWhite` macros. -/

/-- `ifWhite` test (piece codes 0..5). -/
def isW (v : Int) : Prop := 0 ≤ v ∧ v ≤ 5

/-- `ifBlack` test (piece codes 6..11). -/
def isB (v : Int) : Prop := 6 ≤ v ∧ v ≤ 11

instance (v : Int) : Decidable (isW v) := by unfold isW; infer_instance

instance (v : Int) : Decidable (isB v) := by unfold isB; infer_instance

/-- `examineWhitePawn` destinations.  Note the source's promoting
capture-right guard reads square `56 + c` (not the capture target). -/
def pawnTargetsW (b : Board) (x epf : Int) : List Int :=
  let r := cdiv x 8
  let c := cmod x 8
  if r = 6 then
    (if bread b (56 + c) = -1 then [64 + c, 72 + c, 80 + c, 88 + c] else []) ++
    (if c > 0 ∧ isB (bread b (55 + c)) then [63 + c, 71 + c, 79 + c, 87 + c] else []) ++
    (if c < 7 ∧ isB (bread b (56 + c)) then [65 + c, 73 + c, 81 + c, 89 + c] else [])
  else if r < 6 then
    (if bread b (x + 8) = -1 then
      [x + 8] ++ (if r = 1 ∧ bread b (x + 16) = -1 then [x + 16] else [])
     else []) ++
    (if c > 0 then
      (if isB (bread b (x + 7)) then [x + 7]
       else if epf = c - 1 ∧ r = 4 then [x + 7] else [])
     else []) ++
    (if c < 7 then
      (if isB (bread b (x + 9)) then [x + 9]
       else if epf = c + 1 ∧ r = 4 then [x + 9] else [])
     else [])
  else []

/-- `examineBlackPawn` destinations. -/
def pawnTargetsB (b : Board) (x epf : Int) : List Int :=
  let r := cdiv x 8
  let c := cmod x 8
  if r = 1 then
    (if bread b (0 + c) = -1 then [96 + c, 104 + c, 112 + c, 120 + c] else []) ++
    (if c > 0 ∧ isW (bread b (-1 + c)) then [95 + c, 103 + c, 111 + c, 119 + c] else []) ++
    (if c < 7 ∧ isW (bread b (1 + c)) then [97 + c, 105 + c, 113 + c, 121 + c] else [])
  else if r > 1 then
    (if bread b (x - 8) = -1 then
      [x - 8] ++ (if r = 6 ∧ bread b (x - 16) = -1 then [x - 16] else [])
     else []) ++
    (if c > 0 then
      (if isW (bread b (x - 9)) then [x - 9]
       else if epf = c - 1 ∧ r = 3 then [x - 9] else [])
     else []) ++
    (if c < 7 then
      (if isW (bread b (x - 7)) then [x - 7]
       else if epf = c + 1 ∧ r = 3 then [x - 7] else [])
     else [])
  else []

/-- `examineWhiteKnight` destinations (targets must not hold white pieces). -/
def knightTargetsW (b : Board) (x : Int) : List Int :=
  let r := cdiv x 8
  let c := cmod x 8
  (if r > 0 ∧ c > 1 ∧ ¬ isW (bread b (x - 10)) then [x - 10] else []) ++
  (if r > 0 ∧ c < 6 ∧ ¬ isW (bread b (x - 6)) then [x - 6] else []) ++
  (if r < 7 ∧ c > 1 ∧ ¬ isW (bread b (x + 6)) then [x + 6] else []) ++
  (if r < 7 ∧ c < 6 ∧ ¬ isW (bread b (x + 10)) then [x + 10] else []) ++
  (if r > 1 ∧ c > 0 ∧ ¬ isW (bread b (x - 17)) then [x - 17] else []) ++
  (if r > 1 ∧ c < 7 ∧ ¬ isW (bread b (x - 15)) then [x - 15] else []) ++
  (if r < 6 ∧ c > 0 ∧ ¬ isW (bread b (x + 15)) then [x + 15] else []) ++
  (if r < 6 ∧ c < 7 ∧ ¬ isW (bread b (x + 17)) then [x + 17] else [])

/-- `examineBlackKnight` destinations. -/
def knightTargetsB (b : Board) (x : Int) : List Int :=
  let r := cdiv x 8
  let c := cmod x 8
  (if r > 0 ∧ c > 1 ∧ ¬ isB (bread b (x - 10)) then [x - 10] else []) ++
  (if r > 0 ∧ c < 6 ∧ ¬ isB (bread b (x - 6)) then [x - 6] else []) ++
  (if r < 7 ∧ c > 1 ∧ ¬ isB (bread b (x + 6)) then [x + 6] else []) ++
  (if r < 7 ∧ c < 6 ∧ ¬ isB (bread b (x + 10)) then [x + 10] else []) ++
  (if r > 1 ∧ c > 0 ∧ ¬ isB (bread b (x - 17)) then [x - 17] else []) ++
  (if r > 1 ∧ c < 7 ∧ ¬ isB (bread b (x - 15)) then [x - 15] else []) ++
  (if r < 6 ∧ c > 0 ∧ ¬ isB (bread b (x + 15)) then [x + 15] else []) ++
  (if r < 6 ∧ c < 7 ∧ ¬ isB (bread b (x + 17)) then [x + 17] else [])

/-- Slider walk of a white piece: own piece stops before emitting,
enemy piece is emitted and stops. -/
def slideW (b : Board) (sqs : List Int) : List Int :=
  match sqs with
  | [] => []
  | x :: rest =>
    if isW (bread b x) then []
    else if isB (bread b x) then [x]
    else x :: slideW b rest

/-- Slider walk of a black piece. -/
def slideB (b : Board) (sqs : List Int) : List Int :=
  match sqs with
  | [] => []
  | x :: rest =>
    if isB (bread b x) then []
    else if isW (bread b x) then [x]
    else x :: slideB b rest

/-- `examineWhiteBishop` destinations: rays -9, -7, +9, +7 with the
source's `l` bounds. -/
def bishopTargetsW (b : Board) (x : Int) : List Int :=
  let r := cdiv x 8
  let c := cmod x 8
  slideW b (raySquares x (-9) (min r c).toNat) ++
  slideW b (raySquares x (-7) (min r (7 - c)).toNat) ++
  slideW b (raySquares x 9 (min (7 - r) (7 - c)).toNat) ++
  slideW b (raySquares x 7 (min (7 - r) c).toNat)

/-- `examineBlackBishop` destinations. -/
def bishopTargetsB (b : Board) (x : Int) : List Int :=
  let r := cdiv x 8
  let c := cmod x 8
  slideB b (raySquares x (-9) (min r c).toNat) ++
  slideB b (raySquares x (-7) (min r (7 - c)).toNat) ++
  slideB b (raySquares x 9 (min (7 - r) (7 - c)).toNat) ++
  slideB b (raySquares x 7 (min (7 - r) c).toNat)

/-- `examineWhiteRook` destinations: rays -8, +8, -1, +1. -/
def rookTargetsW (b : Board) (x : Int) : List Int :=
  let r := cdiv x 8
  let c := cmod x 8
  slideW b (raySquares x (-8) r.toNat) ++
  slideW b (raySquares x 8 (7 - r).toNat) ++
  slideW b (raySquares x (-1) c.toNat) ++
  slideW b (raySquares x 1 (7 - c).toNat)

/-- `examineBlackRook` destinations. -/
def rookTargetsB (b : Board) (x : Int) : List Int :=
  let r := cdiv x 8
  let c := cmod x 8
  slideB b (raySquares x (-8) r.toNat) ++
  slideB b (raySquares x 8 (7 - r).toNat) ++
  slideB b (raySquares x (-1) c.toNat) ++
  slideB b (raySquares x 1 (7 - c).toNat)

/-- `examineWhiteQueen` = bishop rays then rook rays. -/
def queenTargetsW (b : Board) (x : Int) : List Int :=
  bishopTargetsW b x ++ rookTargetsW b x

/-- `examineBlackQueen`. -/
def queenTargetsB (b : Board) (x : Int) : List Int :=
  bishopTargetsB b x ++ rookTargetsB b x

/-- `examineWhiteKing` (non-castle) destinations. -/
def kingTargetsW (b : Board) (x : Int) : List Int :=
  let r := cdiv x 8
  let c := cmod x 8
  (if r > 0 ∧ ¬ isW (bread b (x - 8)) then [x - 8] else []) ++
  (if r > 0 ∧ c > 0 ∧ ¬ isW (bread b (x - 9)) then [x - 9] else []) ++
  (if r > 0 ∧ c < 7 ∧ ¬ isW (bread b (x - 7)) then [x - 7] else []) ++
  (if r < 7 ∧ ¬ isW (bread b (x + 8)) then [x + 8] else []) ++
  (if r < 7 ∧ c > 0 ∧ ¬ isW (bread b (x + 7)) then [x + 7] else []) ++
  (if r < 7 ∧ c < 7 ∧ ¬ isW (bread b (x + 9)) then [x + 9] else []) ++
  (if c > 0 ∧ ¬ isW (bread b (x - 1)) then [x - 1] else []) ++
  (if c < 7 ∧ ¬ isW (bread b (x + 1)) then [x + 1] else [])

/-- `examineBlackKing` (non-castle) destinations. -/
def kingTargetsB (b : Board) (x : Int) : List Int :=
  let r := cdiv x 8
  let c := cmod x 8
  (if r > 0 ∧ ¬ isB (bread b (x - 8)) then [x - 8] else []) ++
  (if r > 0 ∧ c > 0 ∧ ¬ isB (bread b (x - 9)) then [x - 9] else []) ++
  (if r > 0 ∧ c < 7 ∧ ¬ isB (bread b (x - 7)) then [x - 7] else []) ++
  (if r < 7 ∧ ¬ isB (bread b (x + 8)) then [x + 8] else []) ++
  (if r < 7 ∧ c > 0 ∧ ¬ isB (bread b (x + 7)) then [x + 7] else []) ++
  (if r < 7 ∧ c < 7 ∧ ¬ isB (bread b (x + 9)) then [x + 9] else []) ++
  (if c > 0 ∧ ¬ isB (bread b (x - 1)) then [x - 1] else []) ++
  (if c < 7 ∧ ¬ isB (bread b (x + 1)) then [x + 1] else [])

/-- `examineWK`: white kingside castle generation.  The source checks the
king's current, transit and destination squares by temporarily moving the
king; the temporary boards are expressed with `upd`, and the restore is
complete before the move is emitted. -/
def castleTargetsWK (b : Board) (x : Int) : List Int :=
  if x = 4 ∧ bread b 5 = -1 ∧ bread b 6 = -1 ∧ bread b 7 = 3 then
    if kingNotInCheck b 4 false then
      if kingNotInCheck (upd (upd b 4 (-1)) 5 5) 5 false then
        if kingNotInCheck (upd (upd (upd b 4 (-1)) 5 (-1)) 6 5) 6 false then [6]
        else []
      else []
    else []
  else []

/-- `examineWQ`: white queenside castle generation. -/
def castleTargetsWQ (b : Board) (x : Int) : List Int :=
  if x = 4 ∧ bread b 3 = -1 ∧ bread b 2 = -1 ∧ bread b 1 = -1 ∧ bread b 0 = 3 then
    if kingNotInCheck b 4 false then
      if kingNotInCheck (upd (upd b 4 (-1)) 3 5) 3 false then
        if kingNotInCheck (upd (upd (upd b 4 (-1)) 3 (-1)) 2 5) 2 false then [2]
        else []
      else []
    else []
  else []

/-- `examineBK`: black kingside castle generation. -/
def castleTargetsBK (b : Board) (x : Int) : List Int :=
  if x = 60 ∧ bread b 61 = -1 ∧ bread b 62 = -1 ∧ bread b 63 = 9 then
    if kingNotInCheck b 60 true then
      if kingNotInCheck (upd (upd b 60 (-1)) 61 11) 61 true then
        if kingNotInCheck (upd (upd (upd b 60 (-1)) 61 (-1)) 62 11) 62 true then [62]
        else []
      else []
    else []
  else []

/-- `examineBQ`: black queenside castle generation. -/
def castleTargetsBQ (b : Board) (x : Int) : List Int :=
  if x = 60 ∧ bread b 59 = -1 ∧ bread b 58 = -1 ∧ bread b 57 = -1 ∧ bread b 56 = 9 then
    if kingNotInCheck b 60 true then
      if kingNotInCheck (upd (upd b 60 (-1)) 59 11) 59 true then
        if kingNotInCheck (upd (upd (upd b 60 (-1)) 59 (-1)) 58 11) 58 true then [58]
        else []
      else []
    else []
  else []

/-- The destinations generated for the piece on square `x` (the `switch`
in `examineAllSemilegalMoves`, source lines 2095-2138). -/
def squareTargets (b : Board) (turn : Int) (epf : Int)
    (wkc wqc bkc bqc : Bool) (x : Int) : List Int :=
  if turn = 0 then
    if bread b x = 0 then pawnTargetsW b x epf
    else if bread b x = 1 then knightTargetsW b x
    else if bread b x = 2 then bishopTargetsW b x
    else if bread b x = 3 then rookTargetsW b x
    else if bread b x = 4 then queenTargetsW b x
    else if bread b x = 5 then
      kingTargetsW b x ++ (if wkc then castleTargetsWK b x else []) ++
        (if wqc then castleTargetsWQ b x else [])
    else []
  else
    if bread b x = 6 then pawnTargetsB b x epf
    else if bread b x = 7 then knightTargetsB b x
    else if bread b x = 8 then bishopTargetsB b x
    else if bread b x = 9 then rookTargetsB b x
    else if bread b x = 10 then queenTargetsB b x
    else if bread b x = 11 then
      kingTargetsB b x ++ (if bkc then castleTargetsBK b x else []) ++
        (if bqc then castleTargetsBQ b x else [])
    else []

/-- All pseudo-legal moves of the side to move, scanning squares 0..63 in
order: the `(from, to)` pairs the generator appends to the child pool. -/
def genMoves (b : Board) (turn : Int) (epf : Int)
    (wkc wqc bkc bqc : Bool) : List (Int × Int) :=
  (List.range 64).flatMap
    (fun x => (squareTargets b turn epf wkc wqc bkc bqc (x : Int)).map
      (fun t => ((x : Int), t)))

/-! ### Node, position-state and move records -/

/-- The node struct `N` (source lines 326-348).  Castling abilities are
`Bool` (the source stores `char` 0/1 and only tests truthiness); the
remaining `char`/`int` fields are `Int`; the atomic double `e` and the
score are `ℚ`. -/
structure N where
  wkc : Bool
  wqc : Bool
  bkc : Bool
  bqc : Bool
  epFile : Int
  fifty : Int
  wKing : Int
  bKing : Int
  sqFrom : Int
  sqTo : Int
  turn : Int
  gameState : Int
  parentIndex : Int
  numChildren : Int
  childStartIndex : Int
  numMoves : Int
  moveStartIndex : Int
  e : ℚ
  score : ℚ
deriving Repr, DecidableEq

instance : Inhabited N :=
  ⟨{ wkc := false, wqc := false, bkc := false, bqc := false, epFile := -1,
     fifty := 0, wKing := 0, bKing := 0, sqFrom := -1, sqTo := -1, turn := 0,
     gameState := 0, parentIndex := -1, numChildren := 0, childStartIndex := -1,
     numMoves := 0, moveStartIndex := 0, e := 0, score := 0 }⟩

/-- The driver position-state struct `D` (source lines 376-389). -/
structure D where
  wkc : Bool
  wqc : Bool
  bkc : Bool
  bqc : Bool
  epFile : Int
  fifty : Int
  wKing : Int
  bKing : Int
  sqFrom : Int
  sqTo : Int
  turn : Int
  gameState : Int
deriving Repr, DecidableEq

/-- The per-move record `M` (source lines 365-373): from, encoded to,
true destination, promotion piece, mover, captured piece, and the
en-passant captured square (or -1). -/
structure M where
  f : Int
  t : Int
  tt : Int
  promotion : Int
  mover : Int
  captured : Int
  eps : Int
deriving Repr, DecidableEq

/-- The `M` record built while collecting the chain of moves in
`examineAllSemilegalMoves` (source lines 2066-2070); `mover`, `captured`
and `eps` are filled in at replay time. -/
def mkMoveRec (f t : Int) : M :=
  { f := f, t := t,
    tt := if t < 64 then t else if t < 96 then 56 + cmod t 8 else cmod t 8,
    promotion := if t < 64 then -1 else if t < 96 then cdiv t 8 - 7 else cdiv t 8 - 5,
    mover := 0, captured := 0, eps := -1 }

/-- `playMoveUpdating` (source lines 845-948): applies the move stored in
the node (`sqFrom`, `sqTo`) to the board and updates the node's castling
flags, en-passant file, fifty-move counter and king square in place.
Returns the new board, the updated node and the en-passant captured
square (or -1).  Note the source computes `promotion = (to - 64) / 8`
with C truncating division before decoding the true destination. -/
def playMoveUpdating (b : Board) (n : N) : Board × N × Int :=
  let f := n.sqFrom
  let t0 := n.sqTo
  let promotion := cdiv (t0 - 64) 8
  let t := if t0 ≥ 96 then cmod t0 8 else if t0 ≥ 64 then 56 + cmod t0 8 else t0
  let rf := cdiv f 8
  let cf := cmod f 8
  let rt := cdiv t 8
  let ct := cmod t 8
  let p := bread b f
  let q := bread b t
  let n1 := if n.fifty < 100 then { n with fifty := n.fifty + 1 } else n
  let capture := q ≠ -1
  let n2 := if capture then { n1 with fifty := 0 } else n1
  let n3 := { n2 with epFile := -1 }
  let b1 := upd (upd b t p) f (-1)
  if p = 0 then
    let n4 := { n3 with fifty := 0 }
    if rf = 1 ∧ rt = 3 then (b1, { n4 with epFile := ct }, -1)
    else if promotion > -1 then (upd b1 t (promotion + 1), n4, -1)
    else if rf = 4 ∧ (¬ capture) ∧ cf ≠ ct then (upd b1 (t - 8) (-1), n4, t - 8)
    else (b1, n4, -1)
  else if p = 6 then
    let n4 := { n3 with fifty := 0 }
    if rf = 6 ∧ rt = 4 then (b1, { n4 with epFile := ct }, -1)
    else if promotion > -1 then (upd b1 t (promotion + 3), n4, -1)
    else if rf = 3 ∧ (¬ capture) ∧ cf ≠ ct then (upd b1 (t + 8) (-1), n4, t + 8)
    else (b1, n4, -1)
  else if p = 5 then
    let n4 := { n3 with wkc := false, wqc := false, wKing := t }
    if f = 4 ∧ t = 6 then (upd (upd b1 5 3) 7 (-1), n4, -1)
    else if f = 4 ∧ t = 2 then (upd (upd b1 3 3) 0 (-1), n4, -1)
    else (b1, n4, -1)
  else if p = 11 then
    let n4 := { n3 with bkc := false, bqc := false, bKing := t }
    if f = 60 ∧ t = 62 then (upd (upd b1 61 9) 63 (-1), n4, -1)
    else if f = 60 ∧ t = 58 then (upd (upd b1 59 9) 56 (-1), n4, -1)
    else (b1, n4, -1)
  else if p = 3 then
    (b1,
     (if f = 7 then { n3 with wkc := false }
      else if f = 0 then { n3 with wqc := false } else n3), -1)
  else if p = 9 then
    (b1,
     (if f = 63 then { n3 with bkc := false }
      else if f = 56 then { n3 with bqc := false } else n3), -1)
  else (b1, n3, -1)

/-- `playMove` (source lines 952-1005): applies a recorded move to the
board without touching any position state (its node parameter is never
read or written).  Returns the new board and the en-passant captured
square.  NOTE, mirroring the source: the writes use the ENCODED
destination `move->t` (the local `tt` in the source is computed but
unused), so a promotion replay writes outside squares 0..63. -/
def playMoveS (b : Board) (m : M) : Board × Int :=
  let f := m.f
  let t := m.t
  let p := bread b f
  let q := bread b t
  let b1 := upd (upd b t p) f (-1)
  if p = 0 then
    if m.promotion > -1 then (upd b1 t m.promotion, -1)
    else if cmod f 8 ≠ cmod t 8 ∧ q = -1 then (upd b1 (t - 8) (-1), t - 8)
    else (b1, -1)
  else if p = 6 then
    if m.promotion > -1 then (upd b1 t m.promotion, -1)
    else if cmod f 8 ≠ cmod t 8 ∧ q = -1 then (upd b1 (t + 8) (-1), t + 8)
    else (b1, -1)
  else if p = 5 then
    if f = 4 ∧ t = 6 then (upd (upd b1 5 3) 7 (-1), -1)
    else if f = 4 ∧ t = 2 then (upd (upd b1 3 3) 0 (-1), -1)
    else (b1, -1)
  else if p = 11 then
    if f = 60 ∧ t = 62 then (upd (upd b1 61 9) 63 (-1), -1)
    else if f = 60 ∧ t = 58 then (upd (upd b1 59 9) 56 (-1), -1)
    else (b1, -1)
  else (b1, -1)

/-- `undoMove` (source lines 1110-1140): restore the mover at the source
square and the captured piece at the true destination, put the captured
pawn back after en passant, and move the rook back after castling. -/
def undoMoveS (b : Board) (m : M) : Board :=
  let b1 := upd (upd b m.f m.mover) m.tt m.captured
  if m.eps > -1 then
    upd b1 m.eps (if m.mover = 0 then 6 else 0)
  else if m.f = 4 ∧ m.mover = 5 then
    if m.t = 6 then upd (upd b1 5 (-1)) 7 3
    else if m.t = 2 then upd (upd b1 3 (-1)) 0 3
    else b1
  else if m.f = 60 ∧ m.mover = 11 then
    if m.t = 62 then upd (upd b1 61 (-1)) 63 9
    else if m.t = 58 then upd (upd b1 59 (-1)) 56 9
    else b1
  else b1

/-- `playMoveDriver` (source lines 1009-1107): same update as
`playMoveUpdating` but on a driver `D` record, with the en-passant
captured pawn removed without being reported. -/
def playMoveDriver (b : Board) (d : D) : Board × D :=
  let f := d.sqFrom
  let t0 := d.sqTo
  let promotion := cdiv (t0 - 64) 8
  let t := if t0 ≥ 96 then cmod t0 8 else if t0 ≥ 64 then 56 + cmod t0 8 else t0
  let rf := cdiv f 8
  let cf := cmod f 8
  let rt := cdiv t 8
  let ct := cmod t 8
  let p := bread b f
  let q := bread b t
  let d1 := if d.fifty < 100 then { d with fifty := d.fifty + 1 } else d
  let capture := q ≠ -1
  let d2 := if capture then { d1 with fifty := 0 } else d1
  let d3 := { d2 with epFile := -1 }
  let b1 := upd (upd b t p) f (-1)
  if p = 0 then
    let d4 := { d3 with fifty := 0 }
    if rf = 1 ∧ rt = 3 then (b1, { d4 with epFile := ct })
    else if promotion > -1 then (upd b1 t (promotion + 1), d4)
    else if rf = 4 ∧ (¬ capture) ∧ cf ≠ ct then (upd b1 (t - 8) (-1), d4)
    else (b1, d4)
  else if p = 6 then
    let d4 := { d3 with fifty := 0 }
    if rf = 6 ∧ rt = 4 then (b1, { d4 with epFile := ct })
    else if promotion > -1 then (upd b1 t (promotion + 3), d4)
    else if rf = 3 ∧ (¬ capture) ∧ cf ≠ ct then (upd b1 (t + 8) (-1), d4)
    else (b1, d4)
  else if p = 5 then
    let d4 := { d3 with wkc := false, wqc := false, wKing := t }
    if f = 4 ∧ t = 6 then (upd (upd b1 5 3) 7 (-1), d4)
    else if f = 4 ∧ t = 2 then (upd (upd b1 3 3) 0 (-1), d4)
    else (b1, d4)
  else if p = 11 then
    let d4 := { d3 with bkc := false, bqc := false, bKing := t }
    if f = 60 ∧ t = 62 then (upd (upd b1 61 9) 63 (-1), d4)
    else if f = 60 ∧ t = 58 then (upd (upd b1 59 9) 56 (-1), d4)
    else (b1, d4)
  else if p = 3 then
    (b1,
     (if f = 7 then { d3 with wkc := false }
      else if f = 0 then { d3 with wqc := false } else d3))
  else if p = 9 then
    (b1,
     (if f = 63 then { d3 with bkc := false }
      else if f = 56 then { d3 with bqc := false } else d3))
  else (b1, d3)

/-! ### Engine state: arena, move pool, worker-0 heap -/

/-- The engine state threaded through the expansion pipeline: the node
arena (`nodes` plus the `numNodes` allocation counter and capacity), the
global move pool (`globalMoveFrom`/`globalMoveTo` plus counter and
capacity), worker 0's min-heap (1-indexed in the source: `heap` carries
a dummy at position 0 and `futuresQueueSize = heap.length - 1`), worker
0's calculating board `cb`, and the session stat counters. -/
structure ES where
  nodes : List N
  numNodesCtr : Int
  nodeCap : Int
  gmFrom : List Int
  gmTo : List Int
  gmLenCtr : Int
  moveCap : Int
  heap : List Int
  cb : Board
  statNodesAdded : Int
  statMovesAdded : Int
  statNodesExamined : Int

/-- Arena read `nodes + i` (valid indices are `0 ≤ i < nodes.length` in
every reachable state). -/
def getNode (nodes : List N) (i : Int) : N := nodes.getD i.toNat default

/-- Score of the node a heap slot points to (`(nodes + h[i])->score`). -/
def slotScore (nodes : List N) (h : List Int) (i : Nat) : ℚ :=
  (getNode nodes (h.getD i 0)).score

/-- Swap two heap slots. -/
def hswap (h : List Int) (i j : Nat) : List Int :=
  (h.set i (h.getD j 0)).set j (h.getD i 0)

/-- The reheap-up loop of `addFutureQueue` (source lines 1938-1950). -/
def siftUp (nodes : List N) (h : List Int) (i : Nat) (fuel : Nat) : List Int :=
  match fuel with
  | 0 => h
  | fuel + 1 =>
    if i > 1 then
      let p := i / 2
      if slotScore nodes h i < slotScore nodes h p then
        siftUp nodes (hswap h i p) p fuel
      else h
    else h

/-- `addFutureQueue` (heap variant, source lines 1926-1952): append the
node index at position `futuresQueueSize` (after increment) and sift up.
The geometric array resize is a capacity concern with no observable
effect on the list model. -/
def addFutureQueue (s : ES) (q : Int) : ES :=
  let l := s.heap.length
  let h1 := s.heap ++ [q]
  { s with heap := siftUp s.nodes h1 l l }

/-- The reheap-down loop of `getFirstFuture` (source lines 2256-2291);
`sz` is the queue size before the pop, as in the source. -/
def siftDown (nodes : List N) (h : List Int) (i : Nat) (sz : Nat) (fuel : Nat) :
    List Int :=
  match fuel with
  | 0 => h
  | fuel + 1 =>
    let l := i * 2
    let r := i * 2 + 1
    if l ≥ sz then h
    else if r ≥ sz then
      if slotScore nodes h i > slotScore nodes h l then hswap h i l else h
    else if slotScore nodes h i > slotScore nodes h l ∨
            slotScore nodes h i > slotScore nodes h r then
      if slotScore nodes h l < slotScore nodes h r then
        siftDown nodes (hswap h i l) l sz fuel
      else
        siftDown nodes (hswap h i r) r sz fuel
    else h

/-- `getFirstFuture` (heap variant, source lines 2230-2296): count the
dequeue, take the minimum at slot 1, move the last element to slot 1,
shrink, and sift down. -/
def getFirstFuture (s : ES) : Int × ES :=
  let s1 := { s with statNodesExamined := s.statNodesExamined + 1 }
  let h := s1.heap
  let o := h.getD 1 0
  let sz := h.length - 1
  let h1 := (h.set 1 (h.getD sz 0)).take sz
  (o, { s1 with heap := siftDown s1.nodes h1 1 sz sz })

/-- `evalForcedMateDelay` (source lines 1956-1964). -/
def evalForcedMateDelay (e : ℚ) : ℚ :=
  if e ≥ WHITE_WINS_EVAL_THRESHOLD then e - EVAL_FORCED_MATE_INCREMENT
  else if e ≤ BLACK_WINS_EVAL_THRESHOLD then e + EVAL_FORCED_MATE_INCREMENT
  else e

/-- The (undelayed) evals of a node's children, in arena order. -/
def childEvals (nodes : List N) (n : N) : List ℚ :=
  (List.range n.numChildren.toNat).map
    (fun i => (getNode nodes (n.childStartIndex + (i : Int))).e)

/-- The extremum computation inside one `evalBacktrack` iteration:
`e = delay(child0); for the rest, keep the smaller (black to move) or
larger (white to move) delayed child eval` (source lines 1980-1987 and
2004-2011). -/
def backtrackExtremum (nodes : List N) (n : N) : ℚ :=
  let evs := childEvals nodes n
  let first := evalForcedMateDelay (evs.headD 0)
  if n.turn = 1 then
    (evs.tail).foldl
      (fun a x => if evalForcedMateDelay x < a then evalForcedMateDelay x else a) first
  else
    (evs.tail).foldl
      (fun a x => if evalForcedMateDelay x > a then evalForcedMateDelay x else a) first

/-- The `while` loop of `evalBacktrack` (source lines 1967-2027): at the
current node compute the delayed extremum of the children's evals; if it
equals the stored eval stop without writing, otherwise store it; stop
after updating the root, else continue at the parent.  `fuel` bounds the
walk (any value at least the parent-chain length is exact). -/
def evalBacktrackGo (nodes : List N) (i : Nat) (fuel : Nat) : List N :=
  match fuel with
  | 0 => nodes
  | fuel + 1 =>
    let n := nodes.getD i default
    let oldEval := n.e
    let e := backtrackExtremum nodes n
    if oldEval = e then nodes
    else
      let nodes1 := nodes.set i { n with e := e }
      if i = 0 then nodes1
      else evalBacktrackGo nodes1 n.parentIndex.toNat fuel

/-- `evalBacktrack(n)` from arena index `i`: in every reachable state the
parent chain strictly descends, so `i + 1` steps of fuel are exact. -/
def evalBacktrack (nodes : List N) (i : Nat) : List N :=
  evalBacktrackGo nodes i (i + 1)

/-! ### Expansion: `examineAllSemilegalMoves` and `examineNextPosition` -/

/-- Walk parent links from node `i` collecting the move of every node on
the chain, the examined node's own move first, stopping at the child of
the root (source lines 2060-2074). -/
def collectChain (nodes : List N) (i : Nat) (fuel : Nat) : List M :=
  match fuel with
  | 0 => []
  | fuel + 1 =>
    let p := nodes.getD i default
    let m := mkMoveRec p.sqFrom p.sqTo
    if p.parentIndex = 0 then [m]
    else m :: collectChain nodes p.parentIndex.toNat fuel

/-- Replay the collected ancestor moves in root-to-leaf order (the
source's `for (int i = d - 1; i > 0; i--)` over records 1..d-1): the list
is played back-to-front, recording mover, captured piece and en-passant
square into each record.  Returns the board and the updated records in
their original positions. -/
def playAncestors (b : Board) (ms : List M) : Board × List M :=
  match ms with
  | [] => (b, [])
  | m :: rest =>
    let br := playAncestors b rest
    let m1 := { m with mover := bread br.1 m.f, captured := bread br.1 m.tt }
    let pe := playMoveS br.1 m1
    (pe.1, { m1 with eps := pe.2 } :: br.2)

/-- `examineAllSemilegalMoves` (source lines 2034-2226).  Reconstructs the
node's board by replaying the chain from the root board held in `cb`
(`playMoveUpdating` for the node's own move, updating the node's state
fields in the arena), generates all pseudo-legal moves and their evals,
undoes the replayed moves, classifies a move-less node as a terminal
(testing the king square against the board AFTER the undo, exactly as the
source does), otherwise publishes the move slice, stores the best static
child eval and enqueues the node.  Returns the state and the
out-of-move-pool flag. -/
def examineAllSemilegalMoves (s : ES) (nodeIndex : Nat) : ES × Bool :=
  let n := s.nodes.getD nodeIndex default
  let b := s.cb
  -- reconstruct (skipped entirely for the root, source line 2060)
  let rec0 :=
    if nodeIndex ≠ 0 then
      let chain := collectChain s.nodes nodeIndex s.nodes.length
      let pa := playAncestors b (chain.drop 1)
      let m0 := (chain.headD (mkMoveRec (-1) (-1)))
      let m1 := { m0 with mover := bread pa.1 m0.f, captured := bread pa.1 m0.tt }
      let pu := playMoveUpdating pa.1 n
      (pu.1, pu.2.1, ({ m1 with eps := pu.2.2 } :: pa.2))
    else (b, n, ([] : List M))
  let bPlayed := rec0.1
  let n1 := rec0.2.1
  let recs := rec0.2.2
  let moves := genMoves bPlayed n1.turn n1.epFile n1.wkc n1.wqc n1.bkc n1.bqc
  let evals := moves.map (fun m => examineMoveEval bPlayed m.1 m.2)
  -- undo the replayed moves in chain order (source lines 2141-2143)
  let bUndone := recs.foldl undoMoveS bPlayed
  let s1 := { s with nodes := s.nodes.set nodeIndex n1, cb := bUndone }
  if moves.length = 0 then
    let kingSquare := if n1.turn = 1 then n1.bKing else n1.wKing
    let n2 :=
      if kingNotInCheck bUndone kingSquare (n1.turn = 1) then
        { n1 with gameState := 3, e := DRAW_EVAL }
      else if n1.turn = 1 then
        { n1 with gameState := 1, e := WHITE_WINS_EVAL }
      else
        { n1 with gameState := 2, e := BLACK_WINS_EVAL }
    ({ s1 with nodes := s1.nodes.set nodeIndex n2 }, false)
  else
    let newNC := (moves.length : Int)
    let nl := s1.gmLenCtr
    let s2 := { s1 with gmLenCtr := nl + newNC }
    if nl ≥ s2.moveCap then (s2, true)
    else
      let s3 := { s2 with
        statMovesAdded := s2.statMovesAdded + newNC,
        gmFrom := s2.gmFrom ++ moves.map Prod.fst,
        gmTo := s2.gmTo ++ moves.map Prod.snd }
      let parentEval := if n1.parentIndex ≥ 0 then (getNode s3.nodes n1.parentIndex).e else 0
      let best := evals.foldl
        (fun acc ev =>
          let v := parentEval + ev
          if n1.turn = 1 then (if v < acc then v else acc)
          else (if v > acc then v else acc))
        (if n1.turn = 1 then WHITE_WINS_EVAL else BLACK_WINS_EVAL)
      let n2 := { n1 with numMoves := newNC, moveStartIndex := nl, e := best }
      let s4 := { s3 with nodes := s3.nodes.set nodeIndex n2 }
      (addFutureQueue s4 (nodeIndex : Int), false)

/-- The child-creation loop of `examineNextPosition` (source lines
2318-2351): build child `i` from move `moveStartIndex + i`, with state
copied from the parent except the en-passant file (cleared), the
fifty-move counter (parent + 1), the side to move (flipped) and the score
(parent + 10.0); append it to the arena and examine it at once.  In every
reachable state the allocation counter equals the arena length, so the
reserved slot is the append position. -/
def expandChildren (s : ES) (idx : Nat) (count : Nat) : ES × Bool :=
  match count with
  | 0 => (s, false)
  | count + 1 =>
    let n := s.nodes.getD idx default
    let i := (n.numChildren.toNat - (count + 1) : Nat)
    let moveIndex := (n.moveStartIndex + (i : Int)).toNat
    let newN : N :=
      { wkc := n.wkc, wqc := n.wqc, bkc := n.bkc, bqc := n.bqc,
        epFile := -1, fifty := n.fifty + 1, wKing := n.wKing, bKing := n.bKing,
        sqFrom := s.gmFrom.getD moveIndex 0, sqTo := s.gmTo.getD moveIndex 0,
        turn := 1 - n.turn, gameState := 0, parentIndex := (idx : Int),
        numChildren := 0, numMoves := 0, childStartIndex := -1,
        moveStartIndex := 0, e := 0, score := n.score + 10 }
    let childIdx := s.nodes.length
    let s1 := { s with nodes := s.nodes ++ [newN] }
    let se := examineAllSemilegalMoves s1 childIdx
    if se.2 then (se.1, true)
    else expandChildren se.1 idx count

/-- `examineNextPosition` (source lines 2302-2356): pop the best node,
reserve arena slots for its children (`numMoves` of them), abort on
out-of-space, create and examine every child, then backtrack the evals
from the popped node toward the root. -/
def examineNextPosition (s : ES) : ES × Bool :=
  let os := getFirstFuture s
  let idx := os.1.toNat
  let s1 := os.2
  let n := s1.nodes.getD idx default
  let nc := n.numMoves
  let l := s1.numNodesCtr
  let s2 := { s1 with numNodesCtr := l + nc }
  if l ≥ s2.nodeCap then (s2, true)
  else
    let s3 := { s2 with
      statNodesAdded := s2.statNodesAdded + nc,
      nodes := s2.nodes.set idx { n with numChildren := nc, childStartIndex := l } }
    let se := expandChildren s3 idx nc.toNat
    if se.2 then (se.1, true)
    else ({ se.1 with nodes := evalBacktrack se.1.nodes idx }, false)

/-- `evaluatePositionReps` (source lines 3017-3038) with the cooperative
`run` flag always set: stop on an empty queue, after `reps` expansions,
or when an expansion reports out-of-space. -/
def evalReps (s : ES) (reps : Nat) (i : Nat) (fuel : Nat) : ES :=
  match fuel with
  | 0 => s
  | fuel + 1 =>
    if s.heap.length - 1 = 0 then s
    else if i ≥ reps then s
    else
      let se := examineNextPosition s
      if se.2 then se.1 else evalReps se.1 reps (i + 1) fuel

/-- `setupEvaluation` (source lines 3063-3126) for worker 0: reset the
arena and stats, copy the input board to the calculating board, build the
root node at index 0 (eval = full-board static eval, score =
`ROOT_SCORE`), expand it once with `examineAllSemilegalMoves`, and run
the seeding loop of `numSeedReps` expansions.  The round-robin
distribution of queue entries to other workers moves queue contents only
and is outside this single-worker model. -/
def setupEvaluationModel (b : Board) (d : D) (seedReps : Nat)
    (nodeCap moveCap : Int) : ES :=
  let root : N :=
    { wkc := d.wkc, wqc := d.wqc, bkc := d.bkc, bqc := d.bqc,
      epFile := d.epFile, fifty := d.fifty, wKing := d.wKing, bKing := d.bKing,
      sqFrom := d.sqFrom, sqTo := d.sqTo, turn := d.turn, gameState := d.gameState,
      parentIndex := -1, numChildren := 0, childStartIndex := -1,
      numMoves := -1, moveStartIndex := -1, e := computeEval b, score := ROOT_SCORE }
  let s0 : ES :=
    { nodes := [root], numNodesCtr := 1, nodeCap := nodeCap,
      gmFrom := [], gmTo := [], gmLenCtr := 0, moveCap := moveCap,
      heap := [0], cb := b,
      statNodesAdded := 1, statMovesAdded := 0, statNodesExamined := 0 }
  let s1 := (examineAllSemilegalMoves s0 0).1
  evalReps s1 seedReps 0 (seedReps + 1)

/-! ### Root sorter and `_getOutputData` -/

/-- Truncation toward zero of the `(long long)(double)` conversion in
`writeInt(... * 1000.0)`. -/
def truncQ (q : ℚ) : Int := Int.tdiv q.num (q.den : Int)

/-- One element of the driver's output line: an integer written by
`writeInt`, or the SAN string written by `writeString` (the text of the
SAN rendering is outside this model's scope; only its presence matters
here). -/
inductive OutV where
  | ival (x : Int) : OutV
  | sval : OutV
deriving Repr, DecidableEq

/-- The shift loop of the insertion sort in `getSortedChoices` (source
lines 3159-3174); `black` is the root's side to move. -/
def sortShift (black : Bool) (arr : List N) (e : ℚ) (j : Int) (fuel : Nat) :
    List N × Int :=
  match fuel with
  | 0 => (arr, j)
  | fuel + 1 =>
    let je := (arr.getD j.toNat default).e
    if (black ∧ je > e) ∨ ((¬ black) ∧ je < e) then
      let arr1 := arr.set (j + 1).toNat (arr.getD j.toNat default)
      if j - 1 < 0 then (arr1, j - 1)
      else sortShift black arr1 e (j - 1) fuel
    else (arr, j)

/-- One outer iteration of the insertion sort. -/
def sortPass (black : Bool) (arr : List N) (i : Nat) : List N :=
  let x := arr.getD i default
  let sj := sortShift black arr x.e ((i : Int) - 1) i
  sj.1.set (sj.2 + 1).toNat x

/-- `getSortedChoices` (source lines 3147-3175): collect the root's
children and insertion-sort them by eval, descending when white is to
move at the root, ascending when black is. -/
def getSortedChoices (s : ES) : List N :=
  let root := s.nodes.getD 0 default
  let numChoices := root.numChildren.toNat
  let c := root.childStartIndex
  let arr := (List.range numChoices).map (fun i => getNode s.nodes (c + (i : Int)))
  (List.range numChoices).foldl
    (fun a i => if 1 ≤ i then sortPass (root.turn = 1) a i else a) arr

/-- `_getOutputData` (source lines 4773-4791): the number of root
children, then `{from, to, trunc(eval*1000), san}` per sorted child, then
the three stat counters written by the source (`calcNumNodesAdded`,
`calcNumMovesAdded`, `calcNumNodesExamined`). -/
def getOutputData (s : ES) : List OutV :=
  (if s.nodes.length = 0 then [OutV.ival 0]
   else
     let root := s.nodes.getD 0 default
     let sorted := getSortedChoices s
     [OutV.ival root.numChildren] ++
       (List.range root.numChildren.toNat).flatMap
         (fun i =>
           let c := sorted.getD i default
           [OutV.ival c.sqFrom, OutV.ival c.sqTo,
            OutV.ival (truncQ (c.e * 1000)), OutV.sval])) ++
  [OutV.ival s.statNodesAdded, OutV.ival s.statMovesAdded,
   OutV.ival s.statNodesExamined]

/-! ### The legality test (`isLegalMove` and helpers, source 2467-2882) -/

/-- `isValidWhitePawnMove` (source lines 2467-2515). -/
def isValidWhitePawnMove (b : Board) (f t epf : Int) : Bool :=
  let rf := cdiv f 8
  let cf := cmod f 8
  let ct := cmod t 8
  if rf < 6 then
    if cf = ct then
      bread b (f + 8) = -1 ∧ (t = f + 8 ∨ (rf = 1 ∧ bread b (f + 16) = -1 ∧ t = f + 16))
    else if cf < 7 ∧ t = f + 9 then
      isB (bread b t) ∨ (bread b t = -1 ∧ epf = ct ∧ rf = 4)
    else if cf > 0 ∧ t = f + 7 then
      isB (bread b t) ∨ (bread b t = -1 ∧ epf = ct ∧ rf = 4)
    else false
  else if rf = 6 then
    if cf = ct then
      bread b (f + 8) = -1 ∧ (t = cf + 64 ∨ t = cf + 72 ∨ t = cf + 80 ∨ t = cf + 88)
    else if cf < 7 ∧ (t = cf + 65 ∨ t = cf + 73 ∨ t = cf + 81 ∨ t = cf + 89) then
      isB (bread b (f + 9))
    else if cf > 0 ∧ (t = cf + 63 ∨ t = cf + 71 ∨ t = cf + 79 ∨ t = cf + 87) then
      isB (bread b (f + 7))
    else false
  else false

/-- `isValidBlackPawnMove` (source lines 2518-2566). -/
def isValidBlackPawnMove (b : Board) (f t epf : Int) : Bool :=
  let rf := cdiv f 8
  let cf := cmod f 8
  let ct := cmod t 8
  if rf > 1 then
    if cf = ct then
      bread b (f - 8) = -1 ∧ (t = f - 8 ∨ (rf = 6 ∧ bread b (f - 16) = -1 ∧ t = f - 16))
    else if cf < 7 ∧ t = f - 7 then
      isW (bread b t) ∨ (bread b t = -1 ∧ epf = ct ∧ rf = 3)
    else if cf > 0 ∧ t = f - 9 then
      isW (bread b t) ∨ (bread b t = -1 ∧ epf = ct ∧ rf = 3)
    else false
  else if rf = 1 then
    if cf = ct then
      bread b (f - 8) = -1 ∧ (t = cf + 96 ∨ t = cf + 104 ∨ t = cf + 112 ∨ t = cf + 120)
    else if cf < 7 ∧ (t = cf + 97 ∨ t = cf + 105 ∨ t = cf + 113 ∨ t = cf + 121) then
      isW (bread b (f - 7))
    else if cf > 0 ∧ (t = cf + 95 ∨ t = cf + 103 ∨ t = cf + 111 ∨ t = cf + 119) then
      isW (bread b (f - 9))
    else false
  else false

/-- `isValidKnightMove` (source lines 2569-2585). -/
def isValidKnightMove (f t : Int) : Bool :=
  let rf := cdiv f 8
  let cf := cmod f 8
  let rt := cdiv t 8
  let ct := cmod t 8
  if rf + 1 = rt then cf + 2 = ct ∨ cf - 2 = ct
  else if rf - 1 = rt then cf + 2 = ct ∨ cf - 2 = ct
  else if rf + 2 = rt then cf + 1 = ct ∨ cf - 1 = ct
  else if rf - 2 = rt then cf + 1 = ct ∨ cf - 1 = ct
  else false

/-- Squares strictly between `f` and `t` walking upward by `st`
(the source's `for (x = f + st; x < t; x += st)`). -/
def betweenAsc (f t st : Int) : List Int :=
  raySquares f st ((Int.ediv (t - f - 1) st).toNat)

/-- Squares strictly between `f` and `t` walking downward by `st`. -/
def betweenDesc (f t st : Int) : List Int :=
  raySquares f (-st) ((Int.ediv (f - t - 1) st).toNat)

/-- Every listed square is empty. -/
def pathClear (b : Board) (sqs : List Int) : Bool :=
  sqs.all (fun x => bread b x = -1)

/-- `isValidBishopMove` (source lines 2588-2621). -/
def isValidBishopMove (b : Board) (f t : Int) : Bool :=
  let rf := cdiv f 8
  let cf := cmod f 8
  let rt := cdiv t 8
  let ct := cmod t 8
  if rf - cf = rt - ct then
    if f < t then pathClear b (betweenAsc f t 9) else pathClear b (betweenDesc f t 9)
  else if rf + cf = rt + ct then
    if f < t then pathClear b (betweenAsc f t 7) else pathClear b (betweenDesc f t 7)
  else false

/-- `isValidRookMove` (source lines 2624-2657). -/
def isValidRookMove (b : Board) (f t : Int) : Bool :=
  let rf := cdiv f 8
  let cf := cmod f 8
  let rt := cdiv t 8
  let ct := cmod t 8
  if rf = rt then
    if cf < ct then pathClear b (betweenAsc f t 1) else pathClear b (betweenDesc f t 1)
  else if cf = ct then
    if rf < rt then pathClear b (betweenAsc f t 8) else pathClear b (betweenDesc f t 8)
  else false

/-- `isValidQueenMove` (source lines 2660-2662). -/
def isValidQueenMove (b : Board) (f t : Int) : Bool :=
  isValidBishopMove b f t ∨ isValidRookMove b f t

/-- `isValidKingMove` (source lines 2773-2778). -/
def isValidKingMove (f t : Int) : Bool :=
  let rd := cdiv t 8 - cdiv f 8
  let cd := cmod t 8 - cmod f 8
  rd ≥ -1 ∧ rd ≤ 1 ∧ cd ≥ -1 ∧ cd ≤ 1

/-- `isValidWKMove` (source lines 2665-2689): the transit-square test
moves the king along f1/g1 on the board in place; every path restores the
three squares before returning.  The returned board is the literal final
state of those writes. -/
def isValidWKMove (b : Board) (f t : Int) : Bool × Board :=
  if f = 4 ∧ t = 6 ∧ bread b 5 = -1 ∧ bread b 6 = -1 then
    if kingNotInCheck b 4 false then
      let b1 := upd (upd b 4 (-1)) 5 5
      if kingNotInCheck b1 5 false then
        let b2 := upd (upd b1 5 (-1)) 6 5
        if kingNotInCheck b2 6 false then
          (true, upd (upd (upd b2 4 5) 5 (-1)) 6 (-1))
        else (false, upd (upd (upd b2 4 5) 5 (-1)) 6 (-1))
      else (false, upd (upd (upd b1 4 5) 5 (-1)) 6 (-1))
    else (false, upd (upd (upd b 4 5) 5 (-1)) 6 (-1))
  else (false, b)

/-- `isValidWQMove` (source lines 2692-2716). -/
def isValidWQMove (b : Board) (f t : Int) : Bool × Board :=
  if f = 4 ∧ t = 2 ∧ bread b 3 = -1 ∧ bread b 2 = -1 then
    if kingNotInCheck b 4 false then
      let b1 := upd (upd b 4 (-1)) 3 5
      if kingNotInCheck b1 3 false then
        let b2 := upd (upd b1 3 (-1)) 2 5
        if kingNotInCheck b2 2 false then
          (true, upd (upd (upd b2 4 5) 3 (-1)) 2 (-1))
        else (false, upd (upd (upd b2 4 5) 3 (-1)) 2 (-1))
      else (false, upd (upd (upd b1 4 5) 3 (-1)) 2 (-1))
    else (false, upd (upd (upd b 4 5) 3 (-1)) 2 (-1))
  else (false, b)

/-- `isValidBKMove` (source lines 2719-2743). -/
def isValidBKMove (b : Board) (f t : Int) : Bool × Board :=
  if f = 60 ∧ t = 62 ∧ bread b 61 = -1 ∧ bread b 62 = -1 then
    if kingNotInCheck b 60 true then
      let b1 := upd (upd b 60 (-1)) 61 11
      if kingNotInCheck b1 61 true then
        let b2 := upd (upd b1 61 (-1)) 62 11
        if kingNotInCheck b2 62 true then
          (true, upd (upd (upd b2 60 11) 61 (-1)) 62 (-1))
        else (false, upd (upd (upd b2 60 11) 61 (-1)) 62 (-1))
      else (false, upd (upd (upd b1 60 11) 61 (-1)) 62 (-1))
    else (false, upd (upd (upd b 60 11) 61 (-1)) 62 (-1))
  else (false, b)

/-- `isValidBQMove` (source lines 2746-2770).  NOTE, mirroring the
source: when the d8 transit test passes, the `return 1` sits outside the
c8 test, so a failure at c8 still reports the castle as valid and leaves
the board with the king removed from e8/d8 and a king written to c8. -/
def isValidBQMove (b : Board) (f t : Int) : Bool × Board :=
  if f = 60 ∧ t = 58 ∧ bread b 59 = -1 ∧ bread b 58 = -1 then
    if kingNotInCheck b 60 true then
      let b1 := upd (upd b 60 (-1)) 59 11
      if kingNotInCheck b1 59 true then
        let b2 := upd (upd b1 59 (-1)) 58 11
        if kingNotInCheck b2 58 true then
          (true, upd (upd (upd b2 60 11) 59 (-1)) 58 (-1))
        else (true, b2)
      else (false, upd (upd (upd b1 60 11) 59 (-1)) 58 (-1))
    else (false, upd (upd (upd b 60 11) 59 (-1)) 58 (-1))
  else (false, b)

/-- `isSemilegalMove` (source lines 2782-2811): dispatch on the moved
piece; for kings the castle validators run only when the plain king-move
test fails and the matching ability flag is set, threading the board
through their temporary writes exactly as the `||` chain does. -/
def isSemilegalMove (b : Board) (d : D) (moveFrom moveTo : Int) : Bool × Board :=
  let p := bread b moveFrom
  if p = 0 then (isValidWhitePawnMove b moveFrom moveTo d.epFile, b)
  else if p = 6 then (isValidBlackPawnMove b moveFrom moveTo d.epFile, b)
  else if p = 1 ∨ p = 7 then (isValidKnightMove moveFrom moveTo, b)
  else if p = 2 ∨ p = 8 then (isValidBishopMove b moveFrom moveTo, b)
  else if p = 3 ∨ p = 9 then (isValidRookMove b moveFrom moveTo, b)
  else if p = 4 ∨ p = 10 then (isValidQueenMove b moveFrom moveTo, b)
  else if p = 5 then
    if isValidKingMove moveFrom moveTo then (true, b)
    else
      let wk := if d.wkc then isValidWKMove b moveFrom moveTo else (false, b)
      if wk.1 then (true, wk.2)
      else
        (if d.wqc then isValidWQMove wk.2 moveFrom moveTo else (false, wk.2))
  else if p = 11 then
    if isValidKingMove moveFrom moveTo then (true, b)
    else
      let bk := if d.bkc then isValidBKMove b moveFrom moveTo else (false, b)
      if bk.1 then (true, bk.2)
      else
        (if d.bqc then isValidBQMove bk.2 moveFrom moveTo else (false, bk.2))
  else (false, b)

/-- `isLegalMove` (source lines 2815-2882): range and turn checks, the
piece-movement test, then — after overwriting the given state's
`SQUARE_FROM`, `SQUARE_TO` and `PLAYER_TURN` — a simulation on a copy of
the board to test whether the mover's king is left in check.  Returns the
verdict together with the final board and state, which the source leaves
behind in the caller's storage. -/
def isLegalMove (b : Board) (d : D) (moveFrom moveTo : Int) : Bool × Board × D :=
  let playerTurn := d.turn
  if moveFrom < 0 ∨ moveFrom ≥ 64 then (false, b, d)
  else if moveTo < 0 then (false, b, d)
  else
    let p := bread b moveFrom
    let q := if moveTo ≥ 96 then bread b (cmod moveTo 8)
             else if moveTo ≥ 64 then bread b (56 + cmod moveTo 8)
             else bread b moveTo
    if moveFrom = moveTo then (false, b, d)
    else if p < 6 ∧ playerTurn = 1 then (false, b, d)
    else if p > 5 ∧ playerTurn = 0 then (false, b, d)
    else if 6 ≤ q ∧ q ≤ 11 ∧ playerTurn = 1 then (false, b, d)
    else if 0 ≤ q ∧ q ≤ 5 ∧ playerTurn = 0 then (false, b, d)
    else
      let sb := isSemilegalMove b d moveFrom moveTo
      if ¬ sb.1 then (false, sb.2, d)
      else
        let d1 := { d with sqFrom := moveFrom, sqTo := moveTo, turn := 1 - playerTurn }
        let bd := playMoveDriver sb.2 d1
        let kingSquare := if playerTurn = 1 then bd.2.bKing else bd.2.wKing
        (kingNotInCheck bd.1 kingSquare (playerTurn = 1), sb.2, d1)

/-- `_testCheck` (source lines 4762-4771): the board is parsed from the
position argument, but the king square is read from the globally stored
analysis position (`analysisD`, filled by the most recent
`setup_evaluation`), not from the parsed state, whose king-square fields
are ignored. -/
def testCheckModel (isBlack : Bool) (testBoard : Board) (testD : D)
    (analysis : D) : Bool :=
  let square := if isBlack then analysis.bKing else analysis.wKing
  ¬ kingNotInCheck testBoard square isBlack

/-! ### The spec's description of the backtrack walk

These definitions restate §4.5 step 9 of the specification in its own
words, to be compared with the translated `evalBacktrack`: the walk
visits the node and then its ancestors along parent links; each visited
node's eval is recomputed as the minimum (black to move) or maximum
(white to move) of its children's evals after the mate-distance delay;
the walk stops at the first visited node whose eval is unchanged, or
after updating the root. -/

/-- The extremum exactly as the spec words it: the minimum or maximum of
the list of delayed children evals. -/
def specExtremum (nodes : List N) (n : N) : ℚ :=
  let delayed := (childEvals nodes n).map evalForcedMateDelay
  if n.turn = 1 then (delayed.min?).getD 0 else (delayed.max?).getD 0

/-- The chain of arena indices from a node to the root along parent
links. -/
def chainToRoot (nodes : List N) (i : Nat) (fuel : Nat) : List Nat :=
  match fuel with
  | 0 => []
  | fuel + 1 =>
    if i = 0 then [0]
    else i :: chainToRoot nodes (nodes.getD i default).parentIndex.toNat fuel

/-- The spec's backtrack: visit the chain in order, recompute each node's
eval as the delayed extremum of its children, stop at the first
unchanged eval. -/
def backtrackSpecWalk (nodes : List N) (chain : List Nat) : List N :=
  match chain with
  | [] => nodes
  | j :: rest =>
    let n := nodes.getD j default
    let e := specExtremum nodes n
    if n.e = e then nodes
    else backtrackSpecWalk (nodes.set j { n with e := e }) rest

/-! ### Concrete inputs used by the claim theorems -/

/-- An empty rank. -/
def r8e : List Int := [-1, -1, -1, -1, -1, -1, -1, -1]

/-- A position-state with no castling rights, no en-passant file, kings
recorded on e1/e8, white to move. -/
def dPlain : D :=
  { wkc := false, wqc := false, bkc := false, bqc := false, epFile := -1,
    fifty := 0, wKing := 4, bKing := 60, sqFrom := -1, sqTo := -1,
    turn := 0, gameState := 0 }

/-- A lone white pawn on a7, about to promote (C1). -/
def boardC1 : Board :=
  r8e ++ r8e ++ r8e ++ r8e ++ r8e ++ r8e ++
  [0, -1, -1, -1, -1, -1, -1, -1] ++ r8e

/-- A lone black pawn on a2, about to promote (C3). -/
def boardC3 : Board :=
  r8e ++ [6, -1, -1, -1, -1, -1, -1, -1] ++ r8e ++ r8e ++ r8e ++ r8e ++ r8e ++ r8e

/-- White knight b1, black pawn h7; white to move (C4). -/
def boardC4 : Board :=
  [-1, 1, -1, -1, -1, -1, -1, -1] ++ r8e ++ r8e ++ r8e ++ r8e ++ r8e ++
  [-1, -1, -1, -1, -1, -1, -1, 6] ++ r8e

/-- The session of C4: root expanded once with one seeding expansion
(creating and examining the root's three knight-move children). -/
def sessionC4 : ES := setupEvaluationModel boardC4 dPlain 1 1000000 1000000

/-- White pawn a2 (fully blocked), black pawn a3, black rook h4; black to
move (C5).  Every black rook reply leaves white without a single
pseudo-legal move, and the reply Rh4-h1 leaves the recorded white king
square e1 attacked in the child position but not in the root position. -/
def boardC5 : Board :=
  [-1, -1, -1, -1, -1, -1, -1, -1] ++
  [0, -1, -1, -1, -1, -1, -1, -1] ++
  [6, -1, -1, -1, -1, -1, -1, -1] ++
  [-1, -1, -1, -1, -1, -1, -1, 9] ++ r8e ++ r8e ++ r8e ++ r8e

/-- The session of C5. -/
def sessionC5 : ES :=
  setupEvaluationModel boardC5 { dPlain with turn := 1 } 1 1000000 1000000

/-- White king a1, black king a3; white to move (C2).  After Ka1-a2 the
black king can capture the white king, so that child's stored eval is
about minus one billion while its queue score is the root's score plus
exactly 10. -/
def boardC2 : Board :=
  [5, -1, -1, -1, -1, -1, -1, -1] ++ r8e ++
  [11, -1, -1, -1, -1, -1, -1, -1] ++ r8e ++ r8e ++ r8e ++ r8e ++ r8e

/-- The session of C2. -/
def sessionC2 : ES :=
  setupEvaluationModel boardC2 { dPlain with wKing := 0, bKing := 16 } 1 1000000 1000000

/-- White pawn a2 (fully blocked), black pawn a3, black king d2; white to
move with no pseudo-legal moves and the recorded white king square e1
attacked: the root is classified as a black win (C7). -/
def boardC7 : Board :=
  [-1, -1, -1, -1, -1, -1, -1, -1] ++
  [0, -1, -1, 11, -1, -1, -1, -1] ++
  [6, -1, -1, -1, -1, -1, -1, -1] ++ r8e ++ r8e ++ r8e ++ r8e ++ r8e

/-- The session of C7. -/
def sessionC7 : ES :=
  setupEvaluationModel boardC7 { dPlain with bKing := 11 } 1 1000000 1000000

/-- White king e1, white rook e2, black rook e8; white to move (C8).
Rook e2-a2 obeys the rook movement rules but exposes the white king to
the rook on e8, so the legality test rejects it — after overwriting the
state's move fields. -/
def boardC8 : Board :=
  [-1, -1, -1, -1, 5, -1, -1, -1] ++
  [-1, -1, -1, -1, 3, -1, -1, -1] ++ r8e ++ r8e ++ r8e ++ r8e ++ r8e ++
  [-1, -1, -1, -1, 9, -1, -1, -1]

/-- White pawn b5, black rook a5 sitting where the en-passant undo will
put a black pawn back (C9). -/
def boardC9 : Board :=
  r8e ++ r8e ++ r8e ++ r8e ++
  [9, 0, -1, -1, -1, -1, -1, -1] ++ r8e ++ r8e ++ r8e

/-- The en-passant-shaped move b5-a6 with its record fields taken from
`boardC9` as `examineAllSemilegalMoves` records them. -/
def moveC9 : M :=
  { f := 33, t := 40, tt := 40, promotion := -1, mover := 0, captured := -1,
    eps := -1 }

/-- A black rook on a2 and nothing else: square a1 is attacked and square
h1 is not (C10). -/
def boardC10 : Board :=
  r8e ++ [9, -1, -1, -1, -1, -1, -1, -1] ++ r8e ++ r8e ++ r8e ++ r8e ++ r8e ++ r8e

/-- An analysis state recording the white king on a1. -/
def analysisA1 : D := { dPlain with wKing := 0 }

/-- An analysis state recording the white king on h1. -/
def analysisA2 : D := { dPlain with wKing := 7 }

end Chess

namespace Chess

/-- Two arenas of equal length whose nodes agree on `score` and
`parentIndex` pointwise. -/
def samePS (nodes nodes' : List N) : Prop :=
  nodes'.length = nodes.length ∧
  ∀ j, j < nodes.length →
    (nodes'.getD j default).score = (nodes.getD j default).score ∧
    (nodes'.getD j default).parentIndex = (nodes.getD j default).parentIndex

/-- The score discipline of the arena: the root's queue key is
`ROOT_SCORE` = 0, and every other node's parent link points strictly
backward with the child's key exactly the parent's key plus 10. -/
def scoresInv (nodes : List N) : Prop :=
  (nodes.getD 0 default).score = 0 ∧
  ∀ j, j < nodes.length → j ≠ 0 →
    0 ≤ (nodes.getD j default).parentIndex ∧
    (nodes.getD j default).parentIndex.toNat < j ∧
    (nodes.getD j default).score =
      (nodes.getD (nodes.getD j default).parentIndex.toNat default).score + 10

/-- Every queue slot holds a valid arena index. -/
def heapInv (s : ES) : Prop :=
  ∀ q ∈ s.heap, 0 ≤ q ∧ q.toNat < s.nodes.length

end Chess

namespace Chess

/-! ### Claim theorems -/

/-- C1 (code bug): for the generator-produced promotion move a7-a8=N
(encoded destination 64) on `boardC1`, the eval delta computed by
`examineMove` uses the WHITE PAWN's table row at the true destination
instead of the decoded promotion piece's (the source computes the
promotion index from the already-overwritten `trueMoveto`), so it does
not equal the value the claim specifies (knight table at a8). -/
theorem C1_promotion_delta_uses_pawn_table :
    ((48, 64) ∈ genMoves boardC1 0 (-1) false false false false) ∧
    bread boardC1 56 ≠ 11 ∧
    examineMoveEval boardC1 48 64 = -(evalBoards 0 48) + evalBoards 0 56 ∧
    examineMoveEval boardC1 48 64 ≠ -(evalBoards 0 48) + evalBoards 1 56 := by
  refine ⟨by with_unfolding_all decide, by with_unfolding_all decide,
    by with_unfolding_all rfl, by with_unfolding_all decide⟩

/-- C3 (code bug): for the generator-produced black promotion move
a2-a1=N (encoded destination 96) on `boardC3`, the promotion piece index
`examineMove` decodes is -5, which is outside the eval table's row range
`[0, 11]` — the table access in `computeEvalMove` is out of bounds. -/
theorem C3_black_promotion_index_out_of_bounds :
    ((8, 96) ∈ genMoves boardC3 1 (-1) false false false false) ∧
    (examineMoveDecode 96).1 = 0 ∧
    (examineMoveDecode 96).2 = -5 ∧
    ¬ (0 ≤ (examineMoveDecode 96).2 ∧ (examineMoveDecode 96).2 < 12) := by
  refine ⟨by with_unfolding_all decide, by with_unfolding_all rfl,
    by with_unfolding_all rfl, by with_unfolding_all decide⟩

/-- C4 (code bug): in the session on `boardC4` (white knight b1, black
pawn h7, root fifty-move counter 0), each child of the root is created
with counter parent+1 and its own expansion's `playMoveUpdating`
increments again, so after the child's expansion the counter is 2 — the
claim expects parent+1 = 1.  The moves are knight moves to empty squares
(no pawn move, no capture). -/
theorem C4_fifty_counter_double_increment :
    sessionC4.nodes.map (fun n => (n.parentIndex, n.sqFrom, n.sqTo, n.fifty)) =
      [(-1, -1, -1, 0), (0, 1, 11, 2), (0, 1, 16, 2), (0, 1, 18, 2)] ∧
    bread boardC4 1 = 1 ∧ bread boardC4 11 = -1 ∧ bread boardC4 16 = -1 ∧
    bread boardC4 18 = -1 := by
  refine ⟨by with_unfolding_all rfl, by with_unfolding_all rfl,
    by with_unfolding_all rfl, by with_unfolding_all rfl, by with_unfolding_all rfl⟩

/-- C5 (code bug): in the session on `boardC5`, the child node 3 (reply
Rh4-h1, black rook to h1, white to move next) generates zero moves; the
source classifies it after the undo loop, testing the king square
against the RESTORED root board, and stores DRAW with eval 0 — although
on the child's own position (the root board with the move applied, as
recomputed by `playMoveUpdating` from the node's stored move) the
recorded white king square e1 IS attacked, so the claim requires the
classification "black wins" with eval -1e9.  The node is not enqueued
(the session's queue holds only the heap's dummy slot). -/
theorem C5_terminal_classification_uses_wrong_board :
    (sessionC5.nodes.getD 3 default).sqFrom = 31 ∧
    (sessionC5.nodes.getD 3 default).sqTo = 7 ∧
    (sessionC5.nodes.getD 3 default).turn = 0 ∧
    (sessionC5.nodes.getD 3 default).gameState = 3 ∧
    (sessionC5.nodes.getD 3 default).e = 0 ∧
    sessionC5.heap = [0] ∧
    kingNotInCheck (playMoveUpdating boardC5 (sessionC5.nodes.getD 3 default)).1
      (sessionC5.nodes.getD 3 default).wKing false = false ∧
    kingNotInCheck boardC5 (sessionC5.nodes.getD 3 default).wKing false = true := by
  refine ⟨by with_unfolding_all rfl, by with_unfolding_all rfl,
    by with_unfolding_all rfl, by with_unfolding_all rfl, by with_unfolding_all rfl,
    by with_unfolding_all rfl, by with_unfolding_all rfl, by with_unfolding_all rfl⟩

/-- C10 (confirmed): two runs of `test_check` with the same side and the
same position argument (board `boardC10`, parsed state `analysisA2`)
return different results under different previously loaded analysis
positions, because the king square is read from the stored analysis
state: with the analysis king square a1 (attacked by the rook on a2) the
answer is "in check", with h1 it is "not in check". -/
theorem C10_result_depends_on_stored_analysis_state :
    testCheckModel false boardC10 analysisA2 analysisA1 = true ∧
    testCheckModel false boardC10 analysisA2 analysisA2 = false := by
  refine ⟨by with_unfolding_all rfl, by with_unfolding_all rfl⟩

end Chess

namespace Chess

/-- C2 (counterexample): in the session on `boardC2` the root's child 1
(Ka1-a2, after which the black king can capture the white king) has queue
score exactly root score + 10, while the eval difference from root to
child is about one billion — so no nonnegative depth cost can make the
claimed equation `score = parent score + |eval difference| + cost` hold. -/
theorem C2_score_omits_eval_difference :
    (sessionC2.nodes.getD 1 default).parentIndex = 0 ∧
    (sessionC2.nodes.getD 1 default).score =
      (sessionC2.nodes.getD 0 default).score + 10 ∧
    ¬ ∃ c : ℚ, 0 ≤ c ∧
      (sessionC2.nodes.getD 1 default).score =
        (sessionC2.nodes.getD 0 default).score +
          |(sessionC2.nodes.getD 0 default).e - (sessionC2.nodes.getD 1 default).e| + c := by
  refine ⟨by with_unfolding_all rfl, by with_unfolding_all rfl, ?_⟩
  have hs1 : (sessionC2.nodes.getD 1 default).score = 10 := by with_unfolding_all rfl
  have hs0 : (sessionC2.nodes.getD 0 default).score = 0 := by with_unfolding_all rfl
  have he0 : (sessionC2.nodes.getD 0 default).e = 0 := by with_unfolding_all rfl
  have he1 : (sessionC2.nodes.getD 1 default).e = -1000000000 := by with_unfolding_all rfl
  rintro ⟨c, hc, he⟩
  rw [hs1, hs0, he0, he1] at he
  norm_num at he
  linarith

/-- C7 (counterexample): for the move-less root of `sessionC7` (a mate
position: eval -1e9), `get_output` emits exactly four integers — the
zero choice count and the THREE stat counters — and neither the root's
terminal eval (×1000 = -1e12) nor a fourth counter appears in the
output. -/
theorem C7_output_lacks_root_eval :
    getOutputData sessionC7 =
      [OutV.ival 0, OutV.ival 1, OutV.ival 0, OutV.ival 0] ∧
    truncQ ((sessionC7.nodes.getD 0 default).e * 1000) = -1000000000000 ∧
    OutV.ival (-1000000000000) ∉ getOutputData sessionC7 ∧
    (getOutputData sessionC7).length = 4 := by
  refine ⟨by with_unfolding_all rfl, by with_unfolding_all rfl,
    by with_unfolding_all decide, by with_unfolding_all rfl⟩

/-- C8 (counterexample): the rook move e2-a2 on `boardC8` obeys the rook
movement rules but leaves the white king in check, so `isLegalMove`
returns false — and has already overwritten the given state's
`SQUARE_FROM`, `SQUARE_TO` and `PLAYER_TURN` fields, so the state is NOT
left unchanged as the claim asserts. -/
theorem C8_rejected_move_mutates_state :
    (isLegalMove boardC8 dPlain 12 8).1 = false ∧
    (isLegalMove boardC8 dPlain 12 8).2.2 ≠ dPlain ∧
    (isLegalMove boardC8 dPlain 12 8).2.2.sqFrom = 12 ∧
    dPlain.sqFrom = -1 := by
  refine ⟨by with_unfolding_all rfl, by with_unfolding_all decide,
    by with_unfolding_all rfl, by with_unfolding_all rfl⟩

/-- C9 (counterexample): on `boardC9` the pawn move b5-a6 has the
en-passant shape (diagonal to an empty square), but the square behind
the destination holds a black ROOK; `playMove` removes it and `undoMove`
unconditionally restores a black PAWN there, so the round trip does not
restore the board: square a5 ends as a black pawn (6) instead of the
rook (9).  All record fields are taken from the board beforehand as the
claim prescribes. -/
theorem C9_ep_undo_restores_wrong_piece :
    moveC9.mover = bread boardC9 moveC9.f ∧
    moveC9.captured = bread boardC9 moveC9.tt ∧
    moveC9.tt = moveC9.t ∧ moveC9.promotion = -1 ∧
    bread (undoMoveS (playMoveS boardC9 moveC9).1
      { moveC9 with eps := (playMoveS boardC9 moveC9).2 }) 32 = 6 ∧
    bread boardC9 32 = 9 := by
  refine ⟨by with_unfolding_all rfl, by with_unfolding_all rfl,
    by with_unfolding_all rfl, by with_unfolding_all rfl,
    by with_unfolding_all rfl, by with_unfolding_all rfl⟩

end Chess

namespace Chess

/-- Reading a list at the updated index. -/
theorem getD_set_self (l : List N) (i : Nat) (a d : N) (h : i < l.length) :
    (l.set i a).getD i d = a := by
  rw [List.getD_eq_getElem?_getD, List.getElem?_set_self h]
  rfl

/-- Reading a list away from the updated index. -/
theorem getD_set_of_ne (l : List N) (i j : Nat) (a d : N) (h : i ≠ j) :
    (l.set i a).getD j d = l.getD j d := by
  rw [List.getD_eq_getElem?_getD, List.getElem?_set_ne h, ← List.getD_eq_getElem?_getD]

/-- The branch `if y < x then y else x` of the backtrack fold is `min`. -/
theorem fold_branch_min (x y : ℚ) : (if y < x then y else x) = min x y := by
  rcases lt_or_le y x with h | h
  · simp [h, min_eq_right (le_of_lt h)]
  · simp [not_lt.mpr h, min_eq_left h]

/-- The branch `if y > x then y else x` of the backtrack fold is `max`. -/
theorem fold_branch_max (x y : ℚ) : (if y > x then y else x) = max x y := by
  rcases lt_or_le x y with h | h
  · simp [h, max_eq_right (le_of_lt h)]
  · simp [not_lt.mpr h, max_eq_left h]

/-- The fold in one `evalBacktrack` iteration computes exactly the
spec's extremum of the delayed children evals (trivially so for a node
without children, where both sides are 0). -/
theorem backtrackExtremum_eq_specExtremum (nodes : List N) (n : N) :
    backtrackExtremum nodes n = specExtremum nodes n := by
  unfold backtrackExtremum specExtremum
  rcases hev : childEvals nodes n with _ | ⟨e0, rest⟩
  · by_cases ht : n.turn = 1 <;>
      simp [ht, List.min?, List.max?, evalForcedMateDelay,
        WHITE_WINS_EVAL_THRESHOLD, BLACK_WINS_EVAL_THRESHOLD,
        EVAL_FORCED_MATE_INCREMENT] <;> norm_num
  · have hfmin : (fun (a x : ℚ) =>
        if evalForcedMateDelay x < a then evalForcedMateDelay x else a) =
        (fun a x => min a (evalForcedMateDelay x)) := by
      funext a x
      exact fold_branch_min a (evalForcedMateDelay x)
    have hfmax : (fun (a x : ℚ) =>
        if evalForcedMateDelay x > a then evalForcedMateDelay x else a) =
        (fun a x => max a (evalForcedMateDelay x)) := by
      funext a x
      exact fold_branch_max a (evalForcedMateDelay x)
    by_cases ht : n.turn = 1
    · simp only [ht, if_pos rfl, List.headD, List.tail, List.map_cons, hfmin]
      rw [← List.foldl_map evalForcedMateDelay min rest (evalForcedMateDelay e0)]
      rfl
    · simp only [ht, if_neg ht, List.headD, List.tail, List.map_cons, hfmax]
      rw [← List.foldl_map evalForcedMateDelay max rest (evalForcedMateDelay e0)]
      rfl

/-- Overwriting a node's eval does not change the parent chain. -/
theorem chainToRoot_set_e (nodes : List N) (j : Nat) (x : ℚ) :
    ∀ fuel i,
      chainToRoot (nodes.set j { nodes.getD j default with e := x }) i fuel =
        chainToRoot nodes i fuel := by
  intro fuel
  induction fuel with
  | zero => intro i; rfl
  | succ fuel ih =>
    intro i
    by_cases h0 : i = 0
    · subst h0
      unfold chainToRoot
      simp
    · unfold chainToRoot
      simp only [if_neg h0]
      have hp : ((nodes.set j { nodes.getD j default with e := x }).getD i
          default).parentIndex = (nodes.getD i default).parentIndex := by
        by_cases hj : j = i
        · subst hj
          by_cases hlen : j < nodes.length
          · rw [getD_set_self nodes j _ _ hlen]
          · rw [List.set_eq_of_length_le (le_of_not_lt hlen)]
        · rw [getD_set_of_ne nodes j i _ _ hj]
      rw [hp, ih]

/-- The `evalBacktrack` loop is exactly the spec-worded walk along the
parent chain. -/
theorem evalBacktrackGo_eq_specWalk :
    ∀ (fuel : Nat) (nodes : List N) (i : Nat),
      evalBacktrackGo nodes i fuel =
        backtrackSpecWalk nodes (chainToRoot nodes i fuel) := by
  intro fuel
  induction fuel with
  | zero => intro nodes i; rfl
  | succ fuel ih =>
    intro nodes i
    by_cases h0 : i = 0
    · subst h0
      have hchain : chainToRoot nodes 0 (fuel + 1) = [0] := rfl
      rw [hchain]
      unfold evalBacktrackGo backtrackSpecWalk
      simp only [backtrackExtremum_eq_specExtremum]
      split
      · rfl
      · rfl
    · have hchain : chainToRoot nodes i (fuel + 1) =
          i :: chainToRoot nodes (nodes.getD i default).parentIndex.toNat fuel := by
        rw [show chainToRoot nodes i (fuel + 1) =
          (if i = 0 then [0]
           else i :: chainToRoot nodes (nodes.getD i default).parentIndex.toNat fuel)
          from rfl, if_neg h0]
      rw [hchain]
      unfold evalBacktrackGo backtrackSpecWalk
      simp only [backtrackExtremum_eq_specExtremum]
      split
      · rfl
      · rw [ih, chainToRoot_set_e]

/-- C6 (confirmed): `evalBacktrack`, started at the expanded node,
performs exactly the walk the spec describes: it follows parent links
toward the root, recomputes each visited node's eval as the minimum
(black to move) or maximum (white to move) of its children's evals after
the mate-distance delay (±1000 beyond the ±1e8 thresholds), and stops as
soon as a visited node's eval is unchanged (or after updating the
root). -/
theorem C6_backtrack_is_spec_walk (nodes : List N) (i : Nat) :
    evalBacktrack nodes i = backtrackSpecWalk nodes (chainToRoot nodes i (i + 1)) := by
  unfold evalBacktrack
  exact evalBacktrackGo_eq_specWalk (i + 1) nodes i

end Chess

namespace Chess

/-- A session whose queue holds only the heap's dummy slot performs no
expansion. -/
theorem evalReps_empty_queue (s : ES) (reps i fuel : Nat) (h : s.heap.length = 1) :
    evalReps s reps i fuel = s := by
  cases fuel with
  | zero => rfl
  | succ fuel =>
    unfold evalReps
    rw [h]
    simp

/-- C7 (amended, corrected): when the root position yields zero
generated moves, the session completes with the arena holding only the
root, the root has zero children, and `get_output` reports the zero
choice count followed by the THREE session counters (nodes added = 1,
moves added = 0, nodes examined = 0); the root's terminal eval is not
part of the output. -/
theorem C7_zero_move_root_output (b : Board) (d : D) (seedReps : Nat)
    (nodeCap moveCap : Int)
    (hg : genMoves b d.turn d.epFile d.wkc d.wqc d.bkc d.bqc = []) :
    (setupEvaluationModel b d seedReps nodeCap moveCap).nodes.length = 1 ∧
    ((setupEvaluationModel b d seedReps nodeCap moveCap).nodes.getD 0
      default).numChildren = 0 ∧
    getOutputData (setupEvaluationModel b d seedReps nodeCap moveCap) =
      [OutV.ival 0, OutV.ival 1, OutV.ival 0, OutV.ival 0] := by
  unfold setupEvaluationModel examineAllSemilegalMoves
  simp only [ne_eq, not_true_eq_false, if_false, reduceIte, List.getD_cons_zero]
  rw [hg]
  simp only [List.length_nil, reduceIte, List.map_nil, List.foldl_nil,
    List.set_cons_zero]
  rw [evalReps_empty_queue _ _ _ _ (by rfl)]
  refine ⟨rfl, ?_, ?_⟩
  · split_ifs <;> rfl
  · split_ifs <;> rfl

/-- Witness for C7: the mate position `boardC7` generates zero root
moves, and its session reports `[0, 1, 0, 0]`. -/
theorem C7_zero_move_root_output_witness :
    genMoves boardC7 (0 : Int) (-1) false false false false = [] ∧
    getOutputData (setupEvaluationModel boardC7 { dPlain with bKing := 11 }
      1 1000000 1000000) = [OutV.ival 0, OutV.ival 1, OutV.ival 0, OutV.ival 0] :=
  ⟨by with_unfolding_all rfl,
   (C7_zero_move_root_output boardC7 { dPlain with bKing := 11 } 1 1000000 1000000
     (by with_unfolding_all rfl)).2.2⟩

end Chess
namespace Chess

theorem upd_length (b : Board) (i v : Int) : (upd b i v).length = b.length := by
  unfold upd
  split_ifs <;> simp

theorem upd_same (b : Board) (i v w : Int) : upd (upd b i v) i w = upd b i w := by
  unfold upd
  split_ifs
  · exact List.set_set ..
  · rfl

theorem upd_comm (b : Board) (i j v w : Int) (h : i ≠ j) :
    upd (upd b i v) j w = upd (upd b j w) i v := by
  unfold upd
  split_ifs with hi hj hj
  · exact List.set_comm _ _ _ (by omega)
  · rfl
  · rfl
  · rfl

theorem upd_bread (b : Board) (i : Int) : upd b i (bread b i) = b := by
  unfold upd bread
  split_ifs with h
  · rcases lt_or_le i.toNat b.length with hl | hl
    · refine List.ext_getElem (by simp) ?_
      intro n h1 h2
      rw [List.getElem_set]
      split_ifs with he
      · subst he
        rw [List.getD_eq_getElem?_getD, List.getElem?_eq_getElem hl]
        rfl
      · rfl
    · exact List.set_eq_of_length_le hl
  · rfl

theorem bread_upd_other (b : Board) (i j v : Int) (h : i ≠ j) :
    bread (upd b i v) j = bread b j := by
  unfold bread upd
  split_ifs with hj hi
  · rw [List.getD_eq_getElem?_getD, List.getElem?_set_ne (by omega),
      ← List.getD_eq_getElem?_getD]
  · rfl
  · rfl

theorem upd_to_orig (b : Board) (i v : Int) (h : bread b i = v) : upd b i v = b := by
  rw [← h, upd_bread]

end Chess

namespace Chess

/-- Round trip of a plain move: write the mover at the destination,
clear the source, then restore the source and write the original
destination content back. -/
theorem round_plain (b : Board) (f t p q : Int) (hft : f ≠ t)
    (hp : bread b f = p) (hq : bread b t = q) :
    upd (upd (upd (upd b t p) f (-1)) f p) t q = b := by
  rw [upd_same, upd_comm _ _ _ _ _ hft, upd_same, ← hq, upd_bread, ← hp, upd_bread]

/-- Round trip of a white en-passant-shaped capture: the square behind
the destination held a black pawn (6), which the undo restores. -/
theorem round_ep_w (b : Board) (f t p : Int) (hft : f ≠ t) (hfe : f ≠ t - 8)
    (hp : bread b f = p) (hq : bread b t = -1) (h6 : bread b (t - 8) = 6) :
    upd (upd (upd (upd (upd (upd b t p) f (-1)) (t - 8) (-1)) f p) t (-1))
      (t - 8) 6 = b := by
  have hte : t - 8 ≠ t := by omega
  have hef : t - 8 ≠ f := fun hh => hfe hh.symm
  rw [upd_comm _ _ _ _ _ hef, upd_same, upd_comm _ _ _ _ _ hte, upd_same,
    upd_comm _ _ _ _ _ hft, upd_same]
  rw [upd_to_orig _ _ _ hq]
  have h6b : bread (upd b f p) (t - 8) = 6 := by
    rw [bread_upd_other _ _ _ _ hfe, h6]
  rw [upd_to_orig _ _ _ h6b, ← hp, upd_bread]

/-- Round trip of a black en-passant-shaped capture. -/
theorem round_ep_b (b : Board) (f t p : Int) (hft : f ≠ t) (hfe : f ≠ t + 8)
    (hp : bread b f = p) (hq : bread b t = -1) (h0 : bread b (t + 8) = 0) :
    upd (upd (upd (upd (upd (upd b t p) f (-1)) (t + 8) (-1)) f p) t (-1))
      (t + 8) 0 = b := by
  have hte : t + 8 ≠ t := by omega
  have hef : t + 8 ≠ f := fun hh => hfe hh.symm
  rw [upd_comm _ _ _ _ _ hef, upd_same, upd_comm _ _ _ _ _ hte, upd_same,
    upd_comm _ _ _ _ _ hft, upd_same]
  rw [upd_to_orig _ _ _ hq]
  have h0b : bread (upd b f p) (t + 8) = 0 := by
    rw [bread_upd_other _ _ _ _ hfe, h0]
  rw [upd_to_orig _ _ _ h0b, ← hp, upd_bread]

/-- Round trip of a castle: king from kf to kt, rook from rs to rd,
provided the rook's destination was empty and its source held the rook
piece rk. -/
theorem round_castle (b : Board) (kf kt rs rd pk rk : Int)
    (h1 : kf ≠ kt) (h2 : kf ≠ rs) (h3 : kf ≠ rd) (h4 : kt ≠ rs) (h5 : kt ≠ rd)
    (h6 : rs ≠ rd)
    (hpk : bread b kf = pk) (hrd : bread b rd = -1) (hrs : bread b rs = rk) :
    upd (upd (upd (upd (upd (upd (upd (upd b kt pk) kf (-1)) rd rk) rs (-1))
      kf pk) kt (bread b kt)) rd (-1)) rs rk = b := by
  have h2s : rs ≠ kf := fun hh => h2 hh.symm
  have h3s : rd ≠ kf := fun hh => h3 hh.symm
  have h4s : rs ≠ kt := fun hh => h4 hh.symm
  have h5s : rd ≠ kt := fun hh => h5 hh.symm
  rw [upd_comm _ _ _ _ _ h2s, upd_comm _ _ _ _ _ h3s, upd_same,
    upd_comm _ _ _ _ _ h4s, upd_comm _ _ _ _ _ h5s,
    upd_comm _ _ _ _ _ h1, upd_same, upd_bread]
  have hrdb : bread (upd b kf pk) rd = -1 := by
    rw [bread_upd_other _ _ _ _ h3, hrd]
  have hrsb : bread (upd b kf pk) rs = rk := by
    rw [bread_upd_other _ _ _ _ h2, hrs]
  rw [upd_comm _ _ _ _ _ h6, upd_same, upd_same, upd_to_orig _ _ _ hrdb,
    upd_to_orig _ _ _ hrsb, upd_to_orig _ _ _ hpk]

end Chess

namespace Chess

/-- C9 (amended, corrected): `playMove` followed by `undoMove` restores
the board exactly, for every move record whose fields were taken from
the board beforehand (mover and captured piece read from the board, true
destination equal to the stored destination, no promotion, en-passant
square as reported by `playMove`), PROVIDED the bugged en-passant replay
branch is sound: when the move has the en-passant shape (a pawn moving
between files to an empty square) the square behind the destination
must hold the opposing PAWN — `undoMove` unconditionally restores a pawn
there — and a castle-shaped king move must start from a position with
the rook in its corner and the rook's transit square empty. -/
theorem C9_play_undo_restores_board (b : Board) (m : M)
    (hft : m.f ≠ m.t)
    (htt : m.tt = m.t) (hpr : m.promotion = -1)
    (hm : m.mover = bread b m.f) (hc : m.captured = bread b m.t)
    (hepw : bread b m.f = 0 → cmod m.f 8 ≠ cmod m.t 8 → bread b m.t = -1 →
      bread b (m.t - 8) = 6)
    (hepb : bread b m.f = 6 → cmod m.f 8 ≠ cmod m.t 8 → bread b m.t = -1 →
      bread b (m.t + 8) = 0)
    (hwk : bread b m.f = 5 → m.f = 4 → m.t = 6 → bread b 5 = -1 ∧ bread b 7 = 3)
    (hwq : bread b m.f = 5 → m.f = 4 → m.t = 2 → bread b 3 = -1 ∧ bread b 0 = 3)
    (hbk : bread b m.f = 11 → m.f = 60 → m.t = 62 →
      bread b 61 = -1 ∧ bread b 63 = 9)
    (hbq : bread b m.f = 11 → m.f = 60 → m.t = 58 →
      bread b 59 = -1 ∧ bread b 56 = 9) :
    undoMoveS (playMoveS b m).1 { m with eps := (playMoveS b m).2 } = b := by
  by_cases hp0 : bread b m.f = 0
  · by_cases hepc : cmod m.f 8 ≠ cmod m.t 8 ∧ bread b m.t = -1
    · obtain ⟨hfile, hq⟩ := hepc
      have h6 := hepw hp0 hfile hq
      have het : (0:Int) ≤ m.t - 8 := by
        by_contra hcon
        have hofb : bread b (m.t - 8) = -1 := by
          unfold bread
          rw [if_neg (by omega)]
        rw [hofb] at h6
        exact absurd h6 (by decide)
      have hfe : m.f ≠ m.t - 8 := by
        intro hh
        rw [← hh, hp0] at h6
        exact absurd h6 (by decide)
      simp [playMoveS, undoMoveS, hp0, hpr, hq, hfile, hm, hc, htt,
        show m.t - 8 > -1 from by omega]
      exact round_ep_w b m.f m.t 0 hft hfe hp0 hq h6
    · simp [playMoveS, undoMoveS, hp0, hpr, hepc, hm, hc, htt]
      exact round_plain b m.f m.t 0 (bread b m.t) hft hp0 rfl
  · by_cases hp6 : bread b m.f = 6
    · by_cases hepc : cmod m.f 8 ≠ cmod m.t 8 ∧ bread b m.t = -1
      · obtain ⟨hfile, hq⟩ := hepc
        have h0 := hepb hp6 hfile hq
        have het : (0:Int) ≤ m.t + 8 := by
          by_contra hcon
          have hofb : bread b (m.t + 8) = -1 := by
            unfold bread
            rw [if_neg (by omega)]
          rw [hofb] at h0
          exact absurd h0 (by decide)
        have hfe : m.f ≠ m.t + 8 := by
          intro hh
          rw [← hh, hp6] at h0
          exact absurd h0 (by decide)
        simp [playMoveS, undoMoveS, hp6, hpr, hq, hfile, hm, hc, htt,
        show m.t + 8 > -1 from by omega]
        exact round_ep_b b m.f m.t 6 hft hfe hp6 hq h0
      · simp [playMoveS, undoMoveS, hp6, hpr, hepc, hm, hc, htt]
        exact round_plain b m.f m.t 6 (bread b m.t) hft hp6 rfl
    · by_cases hp5 : bread b m.f = 5
      · by_cases hf4 : m.f = 4
        · have hp5' : bread b 4 = 5 := by rw [← hf4]; exact hp5
          by_cases ht6 : m.t = 6
          · obtain ⟨h5e, h73⟩ := hwk hp5 hf4 ht6
            simp [playMoveS, undoMoveS, hp5', hpr, hf4, ht6, hm, hc, htt]
            exact round_castle b 4 6 7 5 5 3 (by decide) (by decide) (by decide)
              (by decide) (by decide) (by decide) hp5' h5e h73
          · by_cases ht2 : m.t = 2
            · obtain ⟨h3e, h03⟩ := hwq hp5 hf4 ht2
              simp [playMoveS, undoMoveS, hp5', hpr, hf4, ht6, ht2, hm, hc, htt]
              exact round_castle b 4 2 0 3 5 3 (by decide) (by decide) (by decide)
                (by decide) (by decide) (by decide) hp5' h3e h03
            · simp [playMoveS, undoMoveS, hp5', hpr, hf4, ht6, ht2, hm, hc, htt]
              exact round_plain b 4 m.t 5 (bread b m.t) (by omega) hp5' rfl
        · simp [playMoveS, undoMoveS, hp5, hpr, hf4, hm, hc, htt]
          exact round_plain b m.f m.t 5 (bread b m.t) hft hp5 rfl
      · by_cases hp11 : bread b m.f = 11
        · by_cases hf60 : m.f = 60
          · have hp11' : bread b 60 = 11 := by rw [← hf60]; exact hp11
            by_cases ht62 : m.t = 62
            · obtain ⟨h61e, h639⟩ := hbk hp11 hf60 ht62
              simp [playMoveS, undoMoveS, hp11', hpr, hf60, ht62, hm, hc, htt]
              exact round_castle b 60 62 63 61 11 9 (by decide) (by decide)
                (by decide) (by decide) (by decide) (by decide) hp11' h61e h639
            · by_cases ht58 : m.t = 58
              · obtain ⟨h59e, h569⟩ := hbq hp11 hf60 ht58
                simp [playMoveS, undoMoveS, hp11', hpr, hf60, ht62, ht58, hm, hc, htt]
                exact round_castle b 60 58 56 59 11 9 (by decide) (by decide)
                  (by decide) (by decide) (by decide) (by decide) hp11' h59e h569
              · simp [playMoveS, undoMoveS, hp11', hpr, hf60, ht62, ht58, hm, hc, htt]
                exact round_plain b 60 m.t 11 (bread b m.t) (by omega) hp11' rfl
          · simp [playMoveS, undoMoveS, hp11, hpr, hf60, hm, hc, htt]
            exact round_plain b m.f m.t 11 (bread b m.t) hft hp11 rfl
        · simp [playMoveS, undoMoveS, hp0, hp6, hp5, hp11, hpr, hm, hc, htt]
          exact round_plain b m.f m.t (bread b m.f) (bread b m.t) hft rfl rfl

end Chess

namespace Chess

/-- Witness for C9: the knight move b1-c3 on `boardC4`, with all record
fields taken from the board, round-trips exactly. -/
theorem C9_play_undo_restores_board_witness :
    undoMoveS (playMoveS boardC4 ⟨1, 18, 18, -1, 1, -1, -1⟩).1
      { (⟨1, 18, 18, -1, 1, -1, -1⟩ : M) with
        eps := (playMoveS boardC4 ⟨1, 18, 18, -1, 1, -1, -1⟩).2 } = boardC4 :=
  C9_play_undo_restores_board boardC4 ⟨1, 18, 18, -1, 1, -1, -1⟩
    (by decide) rfl rfl (by with_unfolding_all decide)
    (by with_unfolding_all decide) (by with_unfolding_all decide)
    (by with_unfolding_all decide) (by with_unfolding_all decide)
    (by with_unfolding_all decide) (by with_unfolding_all decide)
    (by with_unfolding_all decide)

end Chess
namespace Chess

/-- Restoring a three-square king shuffle: putting the king back and
clearing the two transit squares recovers the original board. -/
theorem restore3 (b : Board) (e m g k : Int) (hem : e ≠ m) (heg : e ≠ g)
    (hmg : m ≠ g) (he : bread b e = k) (hm : bread b m = -1)
    (hg : bread b g = -1) :
    upd (upd (upd b e k) m (-1)) g (-1) = b := by
  have hg' : bread (upd (upd b e k) m (-1)) g = -1 := by
    rw [bread_upd_other _ _ _ _ hmg, bread_upd_other _ _ _ _ heg, hg]
  have hm' : bread (upd b e k) m = -1 := by
    rw [bread_upd_other _ _ _ _ hem, hm]
  rw [upd_to_orig _ _ _ hg', upd_to_orig _ _ _ hm', upd_to_orig _ _ _ he]

/-- Restore after the king has stepped to the first transit square. -/
theorem restore5 (b : Board) (e m g k : Int) (hem : e ≠ m) (heg : e ≠ g)
    (hmg : m ≠ g) (he : bread b e = k) (hm : bread b m = -1)
    (hg : bread b g = -1) :
    upd (upd (upd (upd (upd b e (-1)) m k) e k) m (-1)) g (-1) = b := by
  rw [upd_comm _ _ _ _ _ (show m ≠ e from fun hh => hem hh.symm), upd_same,
    upd_same]
  exact restore3 b e m g k hem heg hmg he hm hg

/-- Restore after the king has stepped to both transit squares. -/
theorem restore7 (b : Board) (e m g k : Int) (hem : e ≠ m) (heg : e ≠ g)
    (hmg : m ≠ g) (he : bread b e = k) (hm : bread b m = -1)
    (hg : bread b g = -1) :
    upd (upd (upd (upd (upd (upd (upd b e (-1)) m k) m (-1)) g k) e k) m (-1))
      g (-1) = b := by
  rw [upd_same, upd_comm _ _ _ _ _ (show g ≠ e from fun hh => heg hh.symm),
    upd_comm _ _ _ _ _ (show m ≠ e from fun hh => hem hh.symm), upd_same,
    upd_comm _ _ _ _ _ (show g ≠ m from fun hh => hmg hh.symm), upd_same,
    upd_same]
  exact restore3 b e m g k hem heg hmg he hm hg

/-- `isValidWhiteKingsideCastle` leaves the board as it found it (the
probe writes are all undone on every path). -/
theorem isValidWKMove_board (b : Board) (f t : Int) (hp : bread b f = 5) :
    (isValidWKMove b f t).2 = b := by
  simp only [isValidWKMove]
  by_cases hc : f = 4 ∧ t = 6 ∧ bread b 5 = -1 ∧ bread b 6 = -1
  · obtain ⟨hf, ht, h5, h6⟩ := hc
    have h4 : bread b 4 = 5 := by rw [← hf]; exact hp
    rw [if_pos ⟨hf, ht, h5, h6⟩]
    split_ifs with k1 k2 k3
    · exact restore7 b 4 5 6 5 (by decide) (by decide) (by decide) h4 h5 h6
    · exact restore7 b 4 5 6 5 (by decide) (by decide) (by decide) h4 h5 h6
    · exact restore5 b 4 5 6 5 (by decide) (by decide) (by decide) h4 h5 h6
    · exact restore3 b 4 5 6 5 (by decide) (by decide) (by decide) h4 h5 h6
  · rw [if_neg hc]

/-- `isValidWhiteQueensideCastle` leaves the board unchanged. -/
theorem isValidWQMove_board (b : Board) (f t : Int) (hp : bread b f = 5) :
    (isValidWQMove b f t).2 = b := by
  simp only [isValidWQMove]
  by_cases hc : f = 4 ∧ t = 2 ∧ bread b 3 = -1 ∧ bread b 2 = -1
  · obtain ⟨hf, ht, h3, h2⟩ := hc
    have h4 : bread b 4 = 5 := by rw [← hf]; exact hp
    rw [if_pos ⟨hf, ht, h3, h2⟩]
    split_ifs with k1 k2 k3
    · exact restore7 b 4 3 2 5 (by decide) (by decide) (by decide) h4 h3 h2
    · exact restore7 b 4 3 2 5 (by decide) (by decide) (by decide) h4 h3 h2
    · exact restore5 b 4 3 2 5 (by decide) (by decide) (by decide) h4 h3 h2
    · exact restore3 b 4 3 2 5 (by decide) (by decide) (by decide) h4 h3 h2
  · rw [if_neg hc]

/-- `isValidBlackKingsideCastle` leaves the board unchanged. -/
theorem isValidBKMove_board (b : Board) (f t : Int) (hp : bread b f = 11) :
    (isValidBKMove b f t).2 = b := by
  simp only [isValidBKMove]
  by_cases hc : f = 60 ∧ t = 62 ∧ bread b 61 = -1 ∧ bread b 62 = -1
  · obtain ⟨hf, ht, h61, h62⟩ := hc
    have h60 : bread b 60 = 11 := by rw [← hf]; exact hp
    rw [if_pos ⟨hf, ht, h61, h62⟩]
    split_ifs with k1 k2 k3
    · exact restore7 b 60 61 62 11 (by decide) (by decide) (by decide) h60 h61 h62
    · exact restore7 b 60 61 62 11 (by decide) (by decide) (by decide) h60 h61 h62
    · exact restore5 b 60 61 62 11 (by decide) (by decide) (by decide) h60 h61 h62
    · exact restore3 b 60 61 62 11 (by decide) (by decide) (by decide) h60 h61 h62
  · rw [if_neg hc]

/-- `isValidBlackQueensideCastle` either restores the board or — on the
bugged path where the d8 probe passes and the c8 probe fails or
succeeds short of the final check — leaves the king written onto c8
with e8 and d8 cleared. -/
theorem isValidBQMove_board (b : Board) (f t : Int) (hp : bread b f = 11) :
    (isValidBQMove b f t).2 = b ∨
    (f = 60 ∧ t = 58 ∧
     (isValidBQMove b f t).2 =
       upd (upd (upd (upd b 60 (-1)) 59 11) 59 (-1)) 58 11) := by
  simp only [isValidBQMove]
  by_cases hc : f = 60 ∧ t = 58 ∧ bread b 59 = -1 ∧ bread b 58 = -1
  · obtain ⟨hf, ht, h59, h58⟩ := hc
    have h60 : bread b 60 = 11 := by rw [← hf]; exact hp
    rw [if_pos ⟨hf, ht, h59, h58⟩]
    split_ifs with k1 k2 k3
    · exact Or.inl
        (restore7 b 60 59 58 11 (by decide) (by decide) (by decide) h60 h59 h58)
    · exact Or.inr ⟨hf, ht, rfl⟩
    · exact Or.inl
        (restore5 b 60 59 58 11 (by decide) (by decide) (by decide) h60 h59 h58)
    · exact Or.inl
        (restore3 b 60 59 58 11 (by decide) (by decide) (by decide) h60 h59 h58)
  · rw [if_neg hc]
    exact Or.inl rfl

/-- The board handed back by `isSemilegalMove`: unchanged, except on the
black queenside castle's bugged path. -/
theorem isSemilegalMove_board (b : Board) (d : D) (f t : Int) :
    (isSemilegalMove b d f t).2 = b ∨
    (f = 60 ∧ t = 58 ∧
     (isSemilegalMove b d f t).2 =
       upd (upd (upd (upd b 60 (-1)) 59 11) 59 (-1)) 58 11) := by
  simp only [isSemilegalMove]
  by_cases hp0 : bread b f = 0
  · rw [if_pos hp0]; exact Or.inl rfl
  rw [if_neg hp0]
  by_cases hp6 : bread b f = 6
  · rw [if_pos hp6]; exact Or.inl rfl
  rw [if_neg hp6]
  by_cases h17 : bread b f = 1 ∨ bread b f = 7
  · rw [if_pos h17]; exact Or.inl rfl
  rw [if_neg h17]
  by_cases h28 : bread b f = 2 ∨ bread b f = 8
  · rw [if_pos h28]; exact Or.inl rfl
  rw [if_neg h28]
  by_cases h39 : bread b f = 3 ∨ bread b f = 9
  · rw [if_pos h39]; exact Or.inl rfl
  rw [if_neg h39]
  by_cases h410 : bread b f = 4 ∨ bread b f = 10
  · rw [if_pos h410]; exact Or.inl rfl
  rw [if_neg h410]
  by_cases hp5 : bread b f = 5
  · rw [if_pos hp5]
    by_cases hkm : isValidKingMove f t = true
    · rw [if_pos hkm]; exact Or.inl rfl
    · rw [if_neg hkm]
      have hwk2 : (if d.wkc then isValidWKMove b f t else (false, b)).2 = b := by
        split_ifs with hw
        · exact isValidWKMove_board b f t hp5
        · rfl
      by_cases hwk1 : (if d.wkc then isValidWKMove b f t else (false, b)).1 = true
      · rw [if_pos hwk1]
        exact Or.inl hwk2
      · rw [if_neg hwk1, hwk2]
        refine Or.inl ?_
        split_ifs with hq
        · exact isValidWQMove_board b f t hp5
        · rfl
  rw [if_neg hp5]
  by_cases hp11 : bread b f = 11
  · rw [if_pos hp11]
    by_cases hkm : isValidKingMove f t = true
    · rw [if_pos hkm]; exact Or.inl rfl
    · rw [if_neg hkm]
      have hbk2 : (if d.bkc then isValidBKMove b f t else (false, b)).2 = b := by
        split_ifs with hw
        · exact isValidBKMove_board b f t hp11
        · rfl
      by_cases hbk1 : (if d.bkc then isValidBKMove b f t else (false, b)).1 = true
      · rw [if_pos hbk1]
        exact Or.inl hbk2
      · rw [if_neg hbk1, hbk2]
        split_ifs with hq
        · exact isValidBQMove_board b f t hp11
        · exact Or.inl rfl
  rw [if_neg hp11]
  exact Or.inl rfl

end Chess

namespace Chess

/-- C8 (amended, corrected): a move rejected by `isLegalMove` yields
verdict false, and the state it leaves behind is either exactly the
given state or the given state with ONLY `SQUARE_FROM`, `SQUARE_TO` and
`PLAYER_TURN` overwritten (castling rights, en-passant file, fifty-move
counter and king squares are never touched); the board it leaves behind
is the given board, except that a black queenside castle attempt can
leave the bugged validator's mutated board (king on c8, e8 and d8
cleared). -/
theorem C8_rejection_bounded_mutation (b : Board) (d : D) (f t : Int)
    (h : (isLegalMove b d f t).1 = false) :
    ((isLegalMove b d f t).2.2 = d ∨
     (isLegalMove b d f t).2.2 =
       { d with sqFrom := f, sqTo := t, turn := 1 - d.turn }) ∧
    ((isLegalMove b d f t).2.1 = b ∨
     (f = 60 ∧ t = 58 ∧
      (isLegalMove b d f t).2.1 =
        upd (upd (upd (upd b 60 (-1)) 59 11) 59 (-1)) 58 11)) := by
  rcases isSemilegalMove_board b d f t with hb | ⟨hf, ht, hb⟩
  · constructor
    · simp only [isLegalMove]
      split_ifs <;> first | exact Or.inl rfl | exact Or.inr rfl
    · simp only [isLegalMove]
      split_ifs <;> first | exact Or.inl rfl | exact Or.inl hb
  · constructor
    · simp only [isLegalMove]
      split_ifs <;> first | exact Or.inl rfl | exact Or.inr rfl
    · simp only [isLegalMove]
      split_ifs <;> first | exact Or.inl rfl | exact Or.inr ⟨hf, ht, hb⟩

/-- Witness for C8: the rejected rook move e2-a2 on `boardC8` leaves the
board unchanged and the state with exactly the three overwritten
fields. -/
theorem C8_rejection_bounded_mutation_witness :
    (isLegalMove boardC8 dPlain 12 8).1 = false ∧
    (((isLegalMove boardC8 dPlain 12 8).2.2 = dPlain ∨
      (isLegalMove boardC8 dPlain 12 8).2.2 =
        { dPlain with sqFrom := 12, sqTo := 8, turn := 1 - dPlain.turn }) ∧
     ((isLegalMove boardC8 dPlain 12 8).2.1 = boardC8 ∨
      ((12:Int) = 60 ∧ (8:Int) = 58 ∧
       (isLegalMove boardC8 dPlain 12 8).2.1 =
         upd (upd (upd (upd boardC8 60 (-1)) 59 11) 59 (-1)) 58 11))) :=
  ⟨by with_unfolding_all rfl,
   C8_rejection_bounded_mutation boardC8 dPlain 12 8 (by with_unfolding_all rfl)⟩

end Chess

namespace Chess

theorem samePS_refl (nodes : List N) : samePS nodes nodes :=
  ⟨rfl, fun _ _ => ⟨rfl, rfl⟩⟩

theorem samePS_trans (a b c : List N) (h1 : samePS a b) (h2 : samePS b c) :
    samePS a c := by
  obtain ⟨hl1, hp1⟩ := h1
  obtain ⟨hl2, hp2⟩ := h2
  refine ⟨hl2.trans hl1, fun j hj => ?_⟩
  obtain ⟨hs1, hq1⟩ := hp1 j hj
  obtain ⟨hs2, hq2⟩ := hp2 j (hl1 ▸ hj)
  exact ⟨hs2.trans hs1, hq2.trans hq1⟩

theorem samePS_set (nodes : List N) (k : Nat) (n' : N)
    (h1 : n'.score = (nodes.getD k default).score)
    (h2 : n'.parentIndex = (nodes.getD k default).parentIndex) :
    samePS nodes (nodes.set k n') := by
  rcases lt_or_le k nodes.length with hl | hl
  · refine ⟨List.length_set .., fun j hj => ?_⟩
    by_cases hjk : j = k
    · subst hjk
      rw [getD_set_self _ _ _ _ hl, h1, h2]
      exact ⟨rfl, rfl⟩
    · rw [getD_set_of_ne _ _ _ _ _ (fun hh => hjk hh.symm)]
      exact ⟨rfl, rfl⟩
  · rw [List.set_eq_of_length_le hl]
    exact samePS_refl nodes

theorem scoresInv_of_samePS (nodes nodes' : List N) (hlen : 0 < nodes.length)
    (hps : samePS nodes nodes') (hs : scoresInv nodes) : scoresInv nodes' := by
  obtain ⟨hl, hp⟩ := hps
  obtain ⟨hroot, hrec⟩ := hs
  refine ⟨((hp 0 hlen).1).trans hroot, fun j hj hj0 => ?_⟩
  have hj' : j < nodes.length := hl ▸ hj
  obtain ⟨hq0, hqlt, hsc⟩ := hrec j hj' hj0
  obtain ⟨hjs, hjq⟩ := hp j hj'
  have hplt : (nodes.getD j default).parentIndex.toNat < nodes.length :=
    lt_trans hqlt hj'
  obtain ⟨hps2, _⟩ := hp (nodes.getD j default).parentIndex.toNat hplt
  rw [hjq, hjs]
  exact ⟨hq0, hqlt, by rw [hsc, ← hps2]⟩

theorem getD_concat_length (l : List N) (x d : N) : (l ++ [x]).getD l.length d = x := by
  rw [List.getD_eq_getElem?_getD, List.getElem?_append_right (le_refl _)]
  simp

theorem getD_append_left (l l' : List N) (n : Nat) (d : N) (h : n < l.length) :
    (l ++ l').getD n d = l.getD n d := by
  rw [List.getD_eq_getElem?_getD, List.getElem?_append, if_pos h,
    ← List.getD_eq_getElem?_getD]

theorem scoresInv_append (nodes : List N) (n' : N) (hlen : 0 < nodes.length)
    (hs : scoresInv nodes)
    (hp0 : 0 ≤ n'.parentIndex) (hp1 : n'.parentIndex.toNat < nodes.length)
    (hsc : n'.score = (nodes.getD n'.parentIndex.toNat default).score + 10) :
    scoresInv (nodes ++ [n']) := by
  obtain ⟨hroot, hrec⟩ := hs
  constructor
  · rw [getD_append_left _ _ _ _ hlen]
    exact hroot
  · intro j hj hj0
    rw [List.length_append, List.length_singleton] at hj
    rcases lt_or_le j nodes.length with hl | hl
    · obtain ⟨hq0, hqlt, hsc'⟩ := hrec j hl hj0
      rw [getD_append_left _ _ _ _ hl,
        getD_append_left _ _ _ _ (lt_trans hqlt hl)]
      exact ⟨hq0, hqlt, hsc'⟩
    · have hje : j = nodes.length := by omega
      subst hje
      rw [getD_concat_length]
      rw [getD_append_left _ _ _ _ hp1]
      exact ⟨hp0, hp1, hsc⟩

end Chess

namespace Chess

theorem heap_getD (h : List Int) (k : Nat) (P : Int → Prop)
    (hp : ∀ q ∈ h, P q) (h0 : P 0) : P (h.getD k 0) := by
  rcases lt_or_le k h.length with hl | hl
  · rw [List.getD_eq_getElem?_getD, List.getElem?_eq_getElem hl]
    exact hp _ (List.getElem_mem hl)
  · rw [List.getD_eq_getElem?_getD, List.getElem?_eq_none hl]
    exact h0

theorem mem_hswap (h : List Int) (i j : Nat) (P : Int → Prop)
    (hp : ∀ q ∈ h, P q) (h0 : P 0) : ∀ q ∈ hswap h i j, P q := by
  intro q hq
  unfold hswap at hq
  rcases List.mem_or_eq_of_mem_set hq with hq1 | hq1
  · rcases List.mem_or_eq_of_mem_set hq1 with hq2 | hq2
    · exact hp _ hq2
    · rw [hq2]
      exact heap_getD h j P hp h0
  · rw [hq1]
    exact heap_getD h i P hp h0

theorem mem_siftUp (nodes : List N) (h : List Int) (i fuel : Nat) (P : Int → Prop)
    (hp : ∀ q ∈ h, P q) (h0 : P 0) : ∀ q ∈ siftUp nodes h i fuel, P q := by
  induction fuel generalizing h i with
  | zero => exact hp
  | succ fuel ih =>
    unfold siftUp
    dsimp only
    split_ifs with h1 h2
    · exact ih (hswap h i (i / 2)) (i / 2) (mem_hswap h i (i / 2) P hp h0)
    · exact hp
    · exact hp

theorem mem_siftDown (nodes : List N) (h : List Int) (i sz fuel : Nat)
    (P : Int → Prop) (hp : ∀ q ∈ h, P q) (h0 : P 0) :
    ∀ q ∈ siftDown nodes h i sz fuel, P q := by
  induction fuel generalizing h i with
  | zero => exact hp
  | succ fuel ih =>
    unfold siftDown
    dsimp only
    split_ifs with h1 h2 h3 h4 h5
    · exact hp
    · exact mem_hswap h i (i * 2) P hp h0
    · exact hp
    · exact ih (hswap h i (i * 2)) (i * 2) (mem_hswap h i (i * 2) P hp h0)
    · exact ih (hswap h i (i * 2 + 1)) (i * 2 + 1) (mem_hswap h i (i * 2 + 1) P hp h0)
    · exact hp

theorem playMoveUpdating_ps (b : Board) (n : N) :
    (playMoveUpdating b n).2.1.score = n.score ∧
    (playMoveUpdating b n).2.1.parentIndex = n.parentIndex := by
  unfold playMoveUpdating
  lift_lets
  intro f t0 promo t rf cf rt ct p q n1 capture n2 n3 b1
  have h1s : n1.score = n.score := by
    unfold n1
    split_ifs <;> rfl
  have h1p : n1.parentIndex = n.parentIndex := by
    unfold n1
    split_ifs <;> rfl
  have h2s : n2.score = n.score := by
    unfold n2
    split_ifs <;> exact h1s
  have h2p : n2.parentIndex = n.parentIndex := by
    unfold n2
    split_ifs <;> exact h1p
  have h3s : n3.score = n.score := h2s
  have h3p : n3.parentIndex = n.parentIndex := h2p
  split_ifs <;> exact ⟨h3s, h3p⟩

end Chess
namespace Chess

theorem examineAll_inv (s : ES) (k : Nat) (hk : k < s.nodes.length)
    (hs : scoresInv s.nodes) (hh : heapInv s) :
    scoresInv (examineAllSemilegalMoves s k).1.nodes ∧
    heapInv (examineAllSemilegalMoves s k).1 ∧
    (examineAllSemilegalMoves s k).1.nodes.length = s.nodes.length := by
  have hl : 0 < s.nodes.length := lt_of_le_of_lt (Nat.zero_le k) hk
  unfold examineAllSemilegalMoves
  lift_lets
  intro n b chain pa m0 m1 pu rec0 bPlayed n1 recs moves evals bUndone s1
    kingSquare n2 newNC nl s2 s3 parentEval best n2b s4
  have hn1s : n1.score = n.score := by
    unfold n1 rec0
    split_ifs
    · exact (playMoveUpdating_ps pa.1 n).1
    · rfl
  have hn1p : n1.parentIndex = n.parentIndex := by
    unfold n1 rec0
    split_ifs
    · exact (playMoveUpdating_ps pa.1 n).2
    · rfl
  have hset1 : samePS s.nodes (s.nodes.set k n1) := samePS_set _ _ _ hn1s hn1p
  have hg1 : (s.nodes.set k n1).getD k default = n1 :=
    getD_set_self _ _ _ _ (by simpa using hk)
  have hn2s : n2.score = n1.score := by
    unfold n2
    split_ifs <;> rfl
  have hn2p : n2.parentIndex = n1.parentIndex := by
    unfold n2
    split_ifs <;> rfl
  have hset2 : samePS (s.nodes.set k n1) ((s.nodes.set k n1).set k n2) :=
    samePS_set _ _ _ (by rw [hg1]; exact hn2s) (by rw [hg1]; exact hn2p)
  have hset2b : samePS (s.nodes.set k n1) ((s.nodes.set k n1).set k n2b) :=
    samePS_set _ _ _ (by rw [hg1]) (by rw [hg1])
  split_ifs with hmv hcap
  · refine ⟨?_, ?_, ?_⟩
    · show scoresInv ((s.nodes.set k n1).set k n2)
      exact scoresInv_of_samePS _ _ hl (samePS_trans _ _ _ hset1 hset2) hs
    · unfold heapInv
      intro q hq
      obtain ⟨h1, h2⟩ := hh q hq
      refine ⟨h1, ?_⟩
      show q.toNat < ((s.nodes.set k n1).set k n2).length
      simpa using h2
    · show ((s.nodes.set k n1).set k n2).length = s.nodes.length
      simp
  · refine ⟨?_, ?_, ?_⟩
    · show scoresInv (s.nodes.set k n1)
      exact scoresInv_of_samePS _ _ hl hset1 hs
    · unfold heapInv
      intro q hq
      obtain ⟨h1, h2⟩ := hh q hq
      refine ⟨h1, ?_⟩
      show q.toNat < (s.nodes.set k n1).length
      simpa using h2
    · show (s.nodes.set k n1).length = s.nodes.length
      simp
  · have hps : samePS s.nodes ((s.nodes.set k n1).set k n2b) :=
      samePS_trans _ _ _ hset1 hset2b
    refine ⟨?_, ?_, ?_⟩
    · show scoresInv ((s.nodes.set k n1).set k n2b)
      exact scoresInv_of_samePS _ _ hl hps hs
    · unfold heapInv
      show ∀ q ∈ siftUp s4.nodes (s4.heap ++ [(k : Int)]) s4.heap.length
        s4.heap.length, 0 ≤ q ∧ q.toNat < (addFutureQueue s4 (k : Int)).nodes.length
      refine mem_siftUp _ _ _ _ _ ?_ ?_
      · intro q hq
        rcases List.mem_append.mp hq with hq1 | hq1
        · obtain ⟨h1, h2⟩ := hh q hq1
          refine ⟨h1, ?_⟩
          show q.toNat < ((s.nodes.set k n1).set k n2b).length
          simpa using h2
        · rw [List.mem_singleton.mp hq1]
          refine ⟨Int.natCast_nonneg k, ?_⟩
          show ((k : Int)).toNat < ((s.nodes.set k n1).set k n2b).length
          simpa using hk
      · refine ⟨le_refl 0, ?_⟩
        show ((0 : Int)).toNat < ((s.nodes.set k n1).set k n2b).length
        simpa using hl
    · show ((s.nodes.set k n1).set k n2b).length = s.nodes.length
      simp

end Chess
namespace Chess

theorem evalBacktrackGo_samePS (nodes : List N) (i fuel : Nat) :
    samePS nodes (evalBacktrackGo nodes i fuel) := by
  induction fuel generalizing nodes i with
  | zero => exact samePS_refl nodes
  | succ fuel ih =>
    unfold evalBacktrackGo
    lift_lets
    intro n oldEval e
    split_ifs with h1 h2
    · exact samePS_refl nodes
    · exact samePS_set _ _ _ rfl rfl
    · refine samePS_trans _ (nodes.set i { n with e := e }) _ ?_ (ih _ _)
      exact samePS_set _ _ _ rfl rfl

theorem getFirstFuture_inv (s : ES) (hh : heapInv s) (hl : 0 < s.nodes.length) :
    (getFirstFuture s).2.nodes = s.nodes ∧
    heapInv (getFirstFuture s).2 ∧
    (getFirstFuture s).1.toNat < s.nodes.length := by
  unfold getFirstFuture
  lift_lets
  intro s1 h o sz h1
  refine ⟨rfl, ?_, ?_⟩
  · unfold heapInv
    show ∀ q ∈ siftDown s1.nodes h1 1 sz sz, 0 ≤ q ∧ q.toNat < s.nodes.length
    refine mem_siftDown _ _ _ _ _ _ ?_ ?_
    · intro q hq
      have hq' : q ∈ h.set 1 (h.getD sz 0) := List.take_subset _ _ hq
      rcases List.mem_or_eq_of_mem_set hq' with hq2 | hq2
      · exact hh q hq2
      · rw [hq2]
        exact heap_getD h sz _ hh ⟨le_refl 0, by simpa using hl⟩
    · exact ⟨le_refl 0, by simpa using hl⟩
  · exact (heap_getD h 1 _ hh ⟨le_refl 0, by simpa using hl⟩).2

theorem expandChildren_inv (s : ES) (idx count : Nat) (hidx : idx < s.nodes.length)
    (hs : scoresInv s.nodes) (hh : heapInv s) :
    scoresInv (expandChildren s idx count).1.nodes ∧
    heapInv (expandChildren s idx count).1 ∧
    s.nodes.length ≤ (expandChildren s idx count).1.nodes.length := by
  induction count generalizing s with
  | zero => exact ⟨hs, hh, le_refl _⟩
  | succ count ih =>
    have hl : 0 < s.nodes.length := lt_of_le_of_lt (Nat.zero_le idx) hidx
    unfold expandChildren
    lift_lets
    intro n i moveIndex newN childIdx s1 se
    have hs1 : scoresInv s1.nodes := by
      show scoresInv (s.nodes ++ [newN])
      refine scoresInv_append _ _ hl hs ?_ ?_ ?_
      · show (0 : Int) ≤ (idx : Int)
        exact Int.natCast_nonneg idx
      · show ((idx : Int)).toNat < s.nodes.length
        simpa using hidx
      · show (s.nodes.getD idx default).score + 10 =
          (s.nodes.getD ((idx : Int)).toNat default).score + 10
        simp
    have hh1 : heapInv s1 := by
      unfold heapInv
      intro q hq
      obtain ⟨h1, h2⟩ := hh q hq
      refine ⟨h1, ?_⟩
      show q.toNat < (s.nodes ++ [newN]).length
      rw [List.length_append]
      omega
    have hci : childIdx < s1.nodes.length := by
      show s.nodes.length < (s.nodes ++ [newN]).length
      simp
    have hse := examineAll_inv s1 childIdx hci hs1 hh1
    have hlen1 : s1.nodes.length = s.nodes.length + 1 := by
      show (s.nodes ++ [newN]).length = s.nodes.length + 1
      simp
    split_ifs with habort
    · refine ⟨hse.1, hse.2.1, ?_⟩
      rw [hse.2.2, hlen1]
      omega
    · have hidx2 : idx < se.1.nodes.length := by
        rw [hse.2.2, hlen1]
        omega
      have := ih se.1 hidx2 hse.1 hse.2.1
      refine ⟨this.1, this.2.1, le_trans ?_ this.2.2⟩
      rw [hse.2.2, hlen1]
      omega

theorem examineNext_inv (s : ES) (hs : scoresInv s.nodes) (hh : heapInv s)
    (hl : 0 < s.nodes.length) :
    scoresInv (examineNextPosition s).1.nodes ∧
    heapInv (examineNextPosition s).1 ∧
    s.nodes.length ≤ (examineNextPosition s).1.nodes.length := by
  obtain ⟨hnn, hh1, holt⟩ := getFirstFuture_inv s hh hl
  unfold examineNextPosition
  lift_lets
  intro os idx s1 n nc l s2 s3 se
  have hs1 : scoresInv s1.nodes := by
    show scoresInv (getFirstFuture s).2.nodes
    rw [hnn]
    exact hs
  have hlen1 : s1.nodes.length = s.nodes.length := by
    show (getFirstFuture s).2.nodes.length = s.nodes.length
    rw [hnn]
  have hidx : idx < s1.nodes.length := by
    rw [hlen1]
    exact holt
  split_ifs with habort hse
  · refine ⟨hs1, ?_, le_of_eq hlen1.symm⟩
    unfold heapInv
    intro q hq
    exact hh1 q hq
  all_goals {
    have hs3 : scoresInv s3.nodes := by
      show scoresInv (s2.nodes.set idx _)
      exact scoresInv_of_samePS _ _ (by rw [hlen1]; exact hl)
        (samePS_set _ _ _ rfl rfl) hs1
    have hh3 : heapInv s3 := by
      unfold heapInv
      intro q hq
      obtain ⟨h1, h2⟩ := hh1 q hq
      refine ⟨h1, ?_⟩
      show q.toNat < (s2.nodes.set idx _).length
      rw [List.length_set]
      exact h2
    have hidx3 : idx < s3.nodes.length := by
      show idx < (s2.nodes.set idx _).length
      rw [List.length_set]
      exact hidx
    have hex := expandChildren_inv s3 idx nc.toNat hidx3 hs3 hh3
    have hlen3 : s3.nodes.length = s.nodes.length := by
      show (s2.nodes.set idx _).length = s.nodes.length
      rw [List.length_set]
      exact hlen1
    first
    | exact ⟨hex.1, hex.2.1, le_trans (le_of_eq hlen3.symm) hex.2.2⟩
    | {
        refine ⟨?_, ?_, ?_⟩
        · show scoresInv (evalBacktrack se.1.nodes idx)
          exact scoresInv_of_samePS _ _
            (lt_of_lt_of_le (lt_of_lt_of_le hl (le_of_eq hlen3.symm)) hex.2.2)
            (evalBacktrackGo_samePS _ _ _) hex.1
        · unfold heapInv
          intro q hq
          obtain ⟨h1, h2⟩ := hex.2.1 q hq
          refine ⟨h1, ?_⟩
          show q.toNat < (evalBacktrackGo se.1.nodes idx (idx + 1)).length
          rw [(evalBacktrackGo_samePS se.1.nodes idx (idx + 1)).1]
          exact h2
        · show s.nodes.length ≤ (evalBacktrackGo se.1.nodes idx (idx + 1)).length
          rw [(evalBacktrackGo_samePS se.1.nodes idx (idx + 1)).1]
          exact le_trans (le_of_eq hlen3.symm) hex.2.2
      }
  }

end Chess
namespace Chess

theorem evalReps_inv (s : ES) (reps i fuel : Nat) (hs : scoresInv s.nodes)
    (hh : heapInv s) (hl : 0 < s.nodes.length) :
    scoresInv (evalReps s reps i fuel).nodes ∧ heapInv (evalReps s reps i fuel) ∧
    0 < (evalReps s reps i fuel).nodes.length := by
  induction fuel generalizing s i with
  | zero => exact ⟨hs, hh, hl⟩
  | succ fuel ih =>
    unfold evalReps
    lift_lets
    intro se
    split_ifs with h1 h2 h3
    · exact ⟨hs, hh, hl⟩
    · exact ⟨hs, hh, hl⟩
    · have := examineNext_inv s hs hh hl
      exact ⟨this.1, this.2.1, lt_of_lt_of_le hl this.2.2⟩
    · have hne := examineNext_inv s hs hh hl
      exact ih se.1 (i + 1) hne.1 hne.2.1 (lt_of_lt_of_le hl hne.2.2)

theorem setup_inv (b : Board) (d : D) (seedReps : Nat) (nodeCap moveCap : Int) :
    scoresInv (setupEvaluationModel b d seedReps nodeCap moveCap).nodes ∧
    0 < (setupEvaluationModel b d seedReps nodeCap moveCap).nodes.length := by
  unfold setupEvaluationModel
  lift_lets
  intro root s0 s1
  have hs0 : scoresInv s0.nodes := by
    show scoresInv [root]
    constructor
    · show root.score = 0
      rfl
    · intro j hj hj0
      exact absurd hj0 (by simp at hj; omega)
  have hh0 : heapInv s0 := by
    unfold heapInv
    intro q hq
    have : q = 0 := List.mem_singleton.mp hq
    rw [this]
    exact ⟨le_refl 0, by simp⟩
  have h1 := examineAll_inv s0 0 (by show 0 < ([root]).length; simp) hs0 hh0
  have h2 := evalReps_inv (examineAllSemilegalMoves s0 0).1 seedReps 0
    (seedReps + 1) h1.1 h1.2.1 (by rw [h1.2.2]; show 0 < ([root]).length; simp)
  exact ⟨h2.1, h2.2.2⟩

theorem scoresInv_nonneg (nodes : List N) (hs : scoresInv nodes) :
    ∀ j, j < nodes.length → 0 ≤ (nodes.getD j default).score := by
  intro j
  induction j using Nat.strong_induction_on with
  | _ j ih =>
    intro hj
    by_cases hj0 : j = 0
    · subst hj0
      rw [hs.1]
    · obtain ⟨hq0, hqlt, hsc⟩ := hs.2 j hj hj0
      rw [hsc]
      have := ih _ hqlt (lt_trans hqlt hj)
      linarith

end Chess

namespace Chess

/-- C2 (amended, corrected): in any finished session every node's queue
key is non-negative; the root's key is `ROOT_SCORE` = 0; and every
non-root node's key equals its parent's key plus EXACTLY 10 (the flat
depth cost) — in particular keys grow strictly along every root-to-leaf
path.  No eval-difference term enters the key: the source adds only
`10.0` when creating a child. -/
theorem C2_score_is_depth_times_ten (b : Board) (d : D) (seedReps : Nat)
    (nodeCap moveCap : Int) (j : Nat)
    (hj : j < (setupEvaluationModel b d seedReps nodeCap moveCap).nodes.length) :
    0 ≤ ((setupEvaluationModel b d seedReps nodeCap moveCap).nodes.getD j
      default).score ∧
    ((setupEvaluationModel b d seedReps nodeCap moveCap).nodes.getD 0
      default).score = 0 ∧
    (j ≠ 0 →
      ((setupEvaluationModel b d seedReps nodeCap moveCap).nodes.getD j
          default).score =
        ((setupEvaluationModel b d seedReps nodeCap moveCap).nodes.getD
          ((setupEvaluationModel b d seedReps nodeCap moveCap).nodes.getD j
            default).parentIndex.toNat default).score + 10 ∧
      ((setupEvaluationModel b d seedReps nodeCap moveCap).nodes.getD
          ((setupEvaluationModel b d seedReps nodeCap moveCap).nodes.getD j
            default).parentIndex.toNat default).score <
        ((setupEvaluationModel b d seedReps nodeCap moveCap).nodes.getD j
          default).score) := by
  obtain ⟨hs, hl⟩ := setup_inv b d seedReps nodeCap moveCap
  refine ⟨scoresInv_nonneg _ hs j hj, hs.1, fun hj0 => ?_⟩
  obtain ⟨hq0, hqlt, hsc⟩ := hs.2 j hj hj0
  refine ⟨hsc, ?_⟩
  rw [hsc]
  linarith

/-- Witness for C2: node 1 of the session on `boardC2` has key 10 =
root key 0 + 10, strictly above the root. -/
theorem C2_score_is_depth_times_ten_witness :
    1 < (setupEvaluationModel boardC2 { dPlain with wKing := 0, bKing := 16 }
      1 1000000 1000000).nodes.length ∧
    (0 ≤ ((setupEvaluationModel boardC2 { dPlain with wKing := 0, bKing := 16 }
        1 1000000 1000000).nodes.getD 1 default).score ∧
     ((setupEvaluationModel boardC2 { dPlain with wKing := 0, bKing := 16 }
        1 1000000 1000000).nodes.getD 0 default).score = 0 ∧
     ((1 : Nat) ≠ 0 →
       ((setupEvaluationModel boardC2 { dPlain with wKing := 0, bKing := 16 }
           1 1000000 1000000).nodes.getD 1 default).score =
         ((setupEvaluationModel boardC2 { dPlain with wKing := 0, bKing := 16 }
           1 1000000 1000000).nodes.getD
           ((setupEvaluationModel boardC2 { dPlain with wKing := 0, bKing := 16 }
             1 1000000 1000000).nodes.getD 1
             default).parentIndex.toNat default).score + 10 ∧
       ((setupEvaluationModel boardC2 { dPlain with wKing := 0, bKing := 16 }
           1 1000000 1000000).nodes.getD
           ((setupEvaluationModel boardC2 { dPlain with wKing := 0, bKing := 16 }
             1 1000000 1000000).nodes.getD 1
             default).parentIndex.toNat default).score <
         ((setupEvaluationModel boardC2 { dPlain with wKing := 0, bKing := 16 }
           1 1000000 1000000).nodes.getD 1 default).score)) :=
  ⟨by with_unfolding_all decide,
   C2_score_is_depth_times_ten boardC2 { dPlain with wKing := 0, bKing := 16 }
     1 1000000 1000000 1 (by with_unfolding_all decide)⟩

end Chess
